import Mathlib

/-!
# Confusion-matrix accumulator (`metrics.go`)

A shallow embedding of the Go package `metrics` and theorems about it.

Modelling conventions.
* Go's `int` is 64 bits wide and its arithmetic wraps around; `wrapInt` is the value an `int`
  expression takes. `Wrapping.Add` and `Wrapping.AddClassID` are `Add` and `AddClassID` with
  the wrapping increment `md.tp[classID] + 1`, and the statements about the exact counter
  values that one call leaves on an arbitrary accumulator are about them. `Add`, `AddClassID`
  and `AddLabels` compute the same increment without the wrap: at a counter below `2^63 - 1`
  the two agree (`wrapping_Add_eq_Add`, `wrapping_AddClassID_eq_AddClassID`), and in a run
  from `New` no counter exceeds the number of calls made, so a run would need `2^63` calls
  before they differ. `Precision`, `Recall` and `Accuracy` wrap their `int` sums.
* Go `[]int` slices are `List Int`. A slice read or write with an index outside
  `[0, len)` panics; every function that can panic returns `Option`, with `none` for a panic.
* The `[]float32` values built by `ToOneHot` only ever hold `0` and `1`, both exactly
  representable; they are modelled by rationals, and the conversion `int(x)` by truncation
  toward zero.
* Methods with a pointer receiver take the state and return the new state.
* The `float32` results of the metric readers are values of `F32`: NaN, the two infinities, or
  a finite rational. `round32` is rounding to nearest, ties to even, on the binary32 grid
  (24-bit significand, exponents from -126, subnormals, overflow to infinity); every
  arithmetic operation is the exact rational operation followed by `round32`. `+0` and `-0`
  are one value, as for Go's `==`; every zero divisor that this program divides a nonzero
  value by is `+0`, so the sign of an infinity is the sign of the dividend.
-/

namespace Metrics

/-- Go slice read `xs[i]`: `none` when `i` is outside `[0, len xs)`. -/
def sliceGet {α : Type} (xs : List α) (i : Int) : Option α :=
  if 0 ≤ i then xs[i.toNat]? else none

/-- Go slice write `xs[i] = v`: `none` when `i` is outside `[0, len xs)`. -/
def sliceSet {α : Type} (xs : List α) (i : Int) (v : α) : Option (List α) :=
  if 0 ≤ i ∧ i.toNat < xs.length then some (xs.set i.toNat v) else none

/-- Go `make([]T, n)` with zero value `z`: panics (`none`) for negative `n`. -/
def makeSlice {α : Type} (z : α) (n : Int) : Option (List α) :=
  if n < 0 then none else some (List.replicate n.toNat z)

/-- Go conversion `int(x)` of a float: truncation toward zero. -/
def floatToInt (x : ℚ) : Int :=
  x.num.tdiv x.den

/-- Go loop `for j := 0; j < n; j++ { body }` over a state, stopping at the first panic. -/
def forRange {σ : Type} (n : Int) (body : Int → σ → Option σ) (s : σ) : Option σ :=
  (List.range n.toNat).foldlM (fun st (j : Nat) => body (j : Int) st) s

/-- The struct `Data`. -/
structure Data where
  numClass : Int
  tp : List Int
  fp : List Int
  fn : List Int
  tn : List Int
  total : Int
  totalTP : Int
  totalFP : Int
  totalFN : Int
  totalTN : Int
  deriving DecidableEq, Repr

/-- The constructor `New`: four zeroed slices of length `numClass`, the other fields zero. -/
def New (numClass : Int) : Option Data := do
  let tp ← makeSlice (0 : Int) numClass
  let fp ← makeSlice (0 : Int) numClass
  let fn ← makeSlice (0 : Int) numClass
  let tn ← makeSlice (0 : Int) numClass
  pure { numClass := numClass, tp := tp, fp := fp, fn := fn, tn := tn,
         total := 0, totalTP := 0, totalFP := 0, totalFN := 0, totalTN := 0 }

/-- The statement `xs[i] = xs[i] + 1`. -/
def bump (xs : List Int) (i : Int) : Option (List Int) := do
  let v ← sliceGet xs i
  sliceSet xs i (v + 1)

/-- The method `Data.Add`. -/
def Add (md : Data) (classID pred answer : Int) : Option Data := do
  let md ←
    if pred = 1 ∧ answer = 1 then do
      let tp ← bump md.tp classID
      pure { md with tp := tp }
    else if pred = 1 ∧ answer = 0 then do
      let fp ← bump md.fp classID
      pure { md with fp := fp }
    else if pred = 0 ∧ answer = 1 then do
      let fn ← bump md.fn classID
      pure { md with fn := fn }
    else do
      let tn ← bump md.tn classID
      pure { md with tn := tn }
  pure { md with total := 0, totalTP := 0, totalFP := 0, totalFN := 0, totalTN := 0 }

/-- The value of an `int` expression whose mathematical value is `x`: two's complement on
64 bits, in `[-2^63, 2^63)`. -/
def wrapInt (x : Int) : Int := (x + 2 ^ 63) % 2 ^ 64 - 2 ^ 63

/-- The statement `xs[i] = xs[i] + 1` in Go's wrapping `int` arithmetic. -/
def Wrapping.bump (xs : List Int) (i : Int) : Option (List Int) := do
  let v ← sliceGet xs i
  sliceSet xs i (wrapInt (v + 1))

/-- The method `Data.Add`, with Go's wrapping `int` arithmetic. -/
def Wrapping.Add (md : Data) (classID pred answer : Int) : Option Data := do
  let md ←
    if pred = 1 ∧ answer = 1 then do
      let tp ← Wrapping.bump md.tp classID
      pure { md with tp := tp }
    else if pred = 1 ∧ answer = 0 then do
      let fp ← Wrapping.bump md.fp classID
      pure { md with fp := fp }
    else if pred = 0 ∧ answer = 1 then do
      let fn ← Wrapping.bump md.fn classID
      pure { md with fn := fn }
    else do
      let tn ← Wrapping.bump md.tn classID
      pure { md with tn := tn }
  pure { md with total := 0, totalTP := 0, totalFP := 0, totalFN := 0, totalTN := 0 }

/-- The error value built by `ToOneHot`; its message carries both numbers. -/
structure OneHotError where
  classID : Int
  numClass : Int
  deriving DecidableEq, Repr

/-- The function `ToOneHot`. The guard implies `0 < numClass`, so `make` and the write
`r[classID] = 1` cannot panic; `List.set` is the write. -/
def ToOneHot (classID numClass : Int) : Except OneHotError (List ℚ) :=
  if classID < 0 ∨ classID ≥ numClass then
    .error { classID := classID, numClass := numClass }
  else
    .ok ((List.replicate numClass.toNat (0 : ℚ)).set classID.toNat 1)

/-- The method `Data.AddClassID`: the new state together with the returned error
(`none` inside the pair is the nil error); the outer `none` is a panic. -/
def AddClassID (md : Data) (predClassID answerClassID : Int) :
    Option (Data × Option OneHotError) :=
  match ToOneHot predClassID md.numClass with
  | .error e => some (md, some e)
  | .ok predOneHot =>
    match ToOneHot answerClassID md.numClass with
    | .error e => some (md, some e)
    | .ok answerOneHot => do
      let md ← forRange md.numClass (fun j st => do
        let p ← sliceGet predOneHot j
        let a ← sliceGet answerOneHot j
        Add st j (floatToInt p) (floatToInt a)) md
      pure (md, none)

/-- The method `Data.AddClassID`, with Go's wrapping `int` arithmetic in its `Add` calls. -/
def Wrapping.AddClassID (md : Data) (predClassID answerClassID : Int) :
    Option (Data × Option OneHotError) :=
  match ToOneHot predClassID md.numClass with
  | .error e => some (md, some e)
  | .ok predOneHot =>
    match ToOneHot answerClassID md.numClass with
    | .error e => some (md, some e)
    | .ok answerOneHot => do
      let md ← forRange md.numClass (fun j st => do
        let p ← sliceGet predOneHot j
        let a ← sliceGet answerOneHot j
        Wrapping.Add st j (floatToInt p) (floatToInt a)) md
      pure (md, none)

/-- The method `Data.AddLabels`; it always returns the nil error unless it panics. -/
def AddLabels (md : Data) (predLabels answerLabels : List Int) :
    Option (Data × Option OneHotError) := do
  let md ← forRange md.numClass (fun j st => do
    let p ← sliceGet predLabels j
    let a ← sliceGet answerLabels j
    Add st j p a) md
  pure (md, none)

/-- The method `Data.Total`. -/
def Total (md : Data) : Option Int :=
  if md.total > 0 then some md.total
  else forRange md.numClass (fun classID r => do
    let a ← sliceGet md.tp classID
    let b ← sliceGet md.fp classID
    let c ← sliceGet md.fn classID
    let d ← sliceGet md.tn classID
    pure (r + (a + b + c + d))) 0

/-- The method `Data.TotalTP`. -/
def TotalTP (md : Data) : Option Int :=
  if md.totalTP > 0 then some md.totalTP
  else forRange md.numClass (fun classID r => do
    let a ← sliceGet md.tp classID
    pure (r + a)) 0

/-- The method `Data.TotalFP`. -/
def TotalFP (md : Data) : Option Int :=
  if md.totalFP > 0 then some md.totalFP
  else forRange md.numClass (fun classID r => do
    let a ← sliceGet md.fp classID
    pure (r + a)) 0

/-- The method `Data.TotalFN`. -/
def TotalFN (md : Data) : Option Int :=
  if md.totalFN > 0 then some md.totalFN
  else forRange md.numClass (fun classID r => do
    let a ← sliceGet md.fn classID
    pure (r + a)) 0

/-- The method `Data.TotalTN`. -/
def TotalTN (md : Data) : Option Int :=
  if md.totalTN > 0 then some md.totalTN
  else forRange md.numClass (fun classID r => do
    let a ← sliceGet md.tn classID
    pure (r + a)) 0

/-- An accumulator is well formed when its four counter slices have length `numClass`. -/
def WellFormed (md : Data) : Prop :=
  (md.tp.length : Int) = md.numClass ∧ (md.fp.length : Int) = md.numClass ∧
  (md.fn.length : Int) = md.numClass ∧ (md.tn.length : Int) = md.numClass

instance (md : Data) : Decidable (WellFormed md) := by
  unfold WellFormed; infer_instance

/-- Every counter of the four slices of `md` is an `int` below the largest one: it lies in
`[-2^63, 2^63 - 1)`, so that adding 1 to it does not wrap around. -/
def CountersBelowMax (md : Data) : Prop :=
  (∀ x ∈ md.tp, -2 ^ 63 ≤ x ∧ x < 2 ^ 63 - 1) ∧ (∀ x ∈ md.fp, -2 ^ 63 ≤ x ∧ x < 2 ^ 63 - 1) ∧
  (∀ x ∈ md.fn, -2 ^ 63 ≤ x ∧ x < 2 ^ 63 - 1) ∧ (∀ x ∈ md.tn, -2 ^ 63 ≤ x ∧ x < 2 ^ 63 - 1)

instance (md : Data) : Decidable (CountersBelowMax md) := by
  unfold CountersBelowMax; infer_instance

/-- The five cached totals of `md` are all `0`. -/
def CachesZero (md : Data) : Prop :=
  md.total = 0 ∧ md.totalTP = 0 ∧ md.totalFP = 0 ∧ md.totalFN = 0 ∧ md.totalTN = 0

/-- Reading counter `j` of a slice, `0` outside the slice. -/
def counter (xs : List Int) (j : Nat) : Int := xs.getD j 0

/-- The state `md2` has the class count and slice lengths of `md1`, and counter `j` of its
`tp`, `fp`, `fn`, `tn` slices is that of `md1` plus `dtp j`, `dfp j`, `dfn j`, `dtn j`. -/
def CountersShift (md1 md2 : Data) (dtp dfp dfn dtn : Nat → Int) : Prop :=
  md2.numClass = md1.numClass ∧
  md2.tp.length = md1.tp.length ∧ md2.fp.length = md1.fp.length ∧
  md2.fn.length = md1.fn.length ∧ md2.tn.length = md1.tn.length ∧
  ∀ j : Nat, counter md2.tp j = counter md1.tp j + dtp j ∧
    counter md2.fp j = counter md1.fp j + dfp j ∧
    counter md2.fn j = counter md1.fn j + dfn j ∧
    counter md2.tn j = counter md1.tn j + dtn j

/-- Indicator of a decidable proposition as an integer. -/
def ind (b : Prop) [Decidable b] : Int := if b then 1 else 0

/-- The number of observations recorded for class `j`: `tp[j] + fp[j] + fn[j] + tn[j]`. -/
def classCount (md : Data) (j : Nat) : Int :=
  counter md.tp j + counter md.fp j + counter md.fn j + counter md.tn j

/-- One call of a mutating method, with its arguments. -/
inductive Call where
  | add (classID pred answer : Int)
  | addClassID (predClassID answerClassID : Int)
  | addLabels (predLabels answerLabels : List Int)
  deriving DecidableEq, Repr

/-- Running one call; an error returned by the call is dropped, a panic is `none`. -/
def Call.run (md : Data) : Call → Option Data
  | .add classID pred answer => Add md classID pred answer
  | .addClassID p a => (AddClassID md p a).map Prod.fst
  | .addLabels ps as => (AddLabels md ps as).map Prod.fst

/-- Running a sequence of calls from left to right. -/
def runCalls (md : Data) (cs : List Call) : Option Data :=
  cs.foldlM Call.run md

/-- The state `md` is reached from `New(numClass)` by some sequence of calls, none of which
panics. -/
def Reachable (numClass : Int) (md : Data) : Prop :=
  ∃ md0 cs, New numClass = some md0 ∧ runCalls md0 cs = some md

/-- The calls `Add(j, predLabels[j], answerLabels[j])` for `j = 0, 1, ..., k-1`, made one
after the other in that order, as the description of `AddLabels` words it. -/
def addInOrder (md : Data) (predLabels answerLabels : List Int) : Nat → Option Data
  | 0 => some md
  | k + 1 =>
    (addInOrder md predLabels answerLabels k).bind
      (fun st => Add st (k : Int) (counter predLabels k) (counter answerLabels k))

/-- The invariant of the states reached from `New(numClass)`: the class count is `numClass`,
the four slices have that length and the five cached totals are zero. -/
def Inv (numClass : Int) (md : Data) : Prop :=
  md.numClass = numClass ∧ WellFormed md ∧ CachesZero md

/-- Running a sequence of `Add(classID, pred, answer)` calls from left to right. -/
def runAdds (md : Data) (cs : List (Int × Int × Int)) : Option Data :=
  cs.foldlM (fun st c => Add st c.1 c.2.1 c.2.2) md

/-- Running one call that must return the nil error: `none` for a panic and for a returned
error. -/
def Call.runOk (md : Data) : Call → Option Data
  | .add classID pred answer => Add md classID pred answer
  | .addClassID p a =>
    match AddClassID md p a with
    | some (st, none) => some st
    | _ => none
  | .addLabels ps as =>
    match AddLabels md ps as with
    | some (st, none) => some st
    | _ => none

/-- Running a sequence of calls from left to right, each of which must return the nil
error. -/
def runCallsOk (md : Data) (cs : List Call) : Option Data :=
  cs.foldlM Call.runOk md

/-- A call that records one observation for every class of a `numClass`-class accumulator:
`AddClassID` with both arguments in range, or `AddLabels` with two sequences of length
`numClass`. -/
def Call.IsObservation (numClass : Int) : Call → Prop
  | .add _ _ _ => False
  | .addClassID p a => 0 ≤ p ∧ p < numClass ∧ 0 ≤ a ∧ a < numClass
  | .addLabels ps as => (ps.length : Int) = numClass ∧ (as.length : Int) = numClass

instance (numClass : Int) (c : Call) : Decidable (Call.IsObservation numClass c) := by
  cases c <;> unfold Call.IsObservation <;> infer_instance

/-- A call that respects the index contracts of a `numClass`-class accumulator: `Add` with an
in-range `classID`, `AddClassID` with any two integers, `AddLabels` with two sequences of
length at least `numClass`. -/
def Call.Admissible (numClass : Int) : Call → Prop
  | .add classID _ _ => 0 ≤ classID ∧ classID < numClass
  | .addClassID _ _ => True
  | .addLabels ps as => numClass ≤ (ps.length : Int) ∧ numClass ≤ (as.length : Int)

instance (numClass : Int) (c : Call) : Decidable (Call.Admissible numClass c) := by
  cases c <;> unfold Call.Admissible <;> infer_instance

/-- Every counter of the four slices of `md` is non-negative. -/
def CountersNonneg (md : Data) : Prop :=
  ∀ j : Nat, 0 ≤ counter md.tp j ∧ 0 ≤ counter md.fp j ∧
    0 ≤ counter md.fn j ∧ 0 ≤ counter md.tn j

/-! ### `float32` -/

/-- A `float32` value: NaN, plus or minus infinity, or a finite value. -/
inductive F32 where
  | nan
  | inf (neg : Bool)
  | fin (q : ℚ)
  deriving DecidableEq, Repr

/-- Rounding a rational to the nearest integer, ties to the even one. -/
def roundHalfEven (x : ℚ) : Int :=
  if x - ⌊x⌋ < 1 / 2 then ⌊x⌋
  else if 1 / 2 < x - ⌊x⌋ then ⌊x⌋ + 1
  else if ⌊x⌋ % 2 = 0 then ⌊x⌋ else ⌊x⌋ + 1

/-- The spacing of the `float32` values around `a >= 0`: `2^(e-23)` where
`2^e <= a < 2^(e+1)`, with `e` no smaller than `-126` (the subnormal range). -/
def ulp32 (a : ℚ) : ℚ := (2 : ℚ) ^ (max (Int.log 2 a) (-126) - 23)

/-- Rounding a rational to `float32`: to nearest, ties to even, overflow to infinity. -/
def round32 (q : ℚ) : F32 :=
  if (2 : ℚ) ^ (128 : Nat) ≤ (roundHalfEven (|q| / ulp32 |q|) : ℚ) * ulp32 |q| then
    .inf (decide (q < 0))
  else
    .fin (if q < 0 then -((roundHalfEven (|q| / ulp32 |q|) : ℚ) * ulp32 |q|)
      else (roundHalfEven (|q| / ulp32 |q|) : ℚ) * ulp32 |q|)

/-- The conversion `float32(n)` of an `int`. -/
def F32.ofInt (n : Int) : F32 := round32 n

/-- The `float32` sum `x + y`. -/
def F32.add : F32 → F32 → F32
  | .nan, _ => .nan
  | _, .nan => .nan
  | .inf s, .inf t => if s = t then .inf s else .nan
  | .inf s, .fin _ => .inf s
  | .fin _, .inf t => .inf t
  | .fin x, .fin y => round32 (x + y)

/-- The `float32` product `x * y`. -/
def F32.mul : F32 → F32 → F32
  | .nan, _ => .nan
  | _, .nan => .nan
  | .inf s, .inf t => .inf (xor s t)
  | .inf s, .fin y => if y = 0 then .nan else .inf (xor s (decide (y < 0)))
  | .fin x, .inf t => if x = 0 then .nan else .inf (xor (decide (x < 0)) t)
  | .fin x, .fin y => round32 (x * y)

/-- The `float32` quotient `x / y`. -/
def F32.div : F32 → F32 → F32
  | .nan, _ => .nan
  | _, .nan => .nan
  | .inf _, .inf _ => .nan
  | .inf s, .fin y => .inf (xor s (decide (y < 0)))
  | .fin _, .inf _ => .fin 0
  | .fin x, .fin y =>
    if y = 0 then (if x = 0 then .nan else .inf (decide (x < 0))) else round32 (x / y)

/-- Go's comparison `x == y` on `float32`: NaN is equal to nothing, itself included. -/
def F32.equal : F32 → F32 → Bool
  | .nan, _ => false
  | _, .nan => false
  | .inf s, .inf t => s == t
  | .fin x, .fin y => decide (x = y)
  | _, _ => false

/-- The method `Data.Precision`; the `int` sum wraps before it is converted. -/
def Precision (md : Data) (classID : Int) : Option F32 := do
  let tp ← sliceGet md.tp classID
  let fp ← sliceGet md.fp classID
  pure (F32.div (F32.ofInt tp) (F32.ofInt (wrapInt (tp + fp))))

/-- The method `Data.Recall`; the `int` sum wraps before it is converted. -/
def Recall (md : Data) (classID : Int) : Option F32 := do
  let tp ← sliceGet md.tp classID
  let fn ← sliceGet md.fn classID
  pure (F32.div (F32.ofInt tp) (F32.ofInt (wrapInt (tp + fn))))

/-- The method `Data.Accuracy`; each `int` addition wraps before the sums are converted. -/
def Accuracy (md : Data) (classID : Int) : Option F32 := do
  let tp ← sliceGet md.tp classID
  let tn ← sliceGet md.tn classID
  let fp ← sliceGet md.fp classID
  let fn ← sliceGet md.fn classID
  pure (F32.div (F32.ofInt (wrapInt (tp + tn)))
    (F32.ofInt (wrapInt (wrapInt (wrapInt (tp + fp) + fn) + tn))))

/-- The method `Data.MacroMetrics`; the loop state is the triple `(p, r, a)`, and the result
is `(macroPrecision, macroRecall, macroFMeasure, averageAccuracy)`. -/
def MacroMetrics (md : Data) : Option (F32 × F32 × F32 × F32) := do
  let acc ← forRange md.numClass (fun i (acc : F32 × F32 × F32) => do
    let x ← Precision md i
    let y ← Recall md i
    let z ← Accuracy md i
    pure (F32.add acc.1 x, F32.add acc.2.1 y, F32.add acc.2.2 z))
    (F32.fin 0, F32.fin 0, F32.fin 0)
  let numClass := F32.ofInt md.numClass
  let macroPrecision := F32.div acc.1 numClass
  let macroRecall := F32.div acc.2.1 numClass
  let macroFMeasure := F32.div (F32.mul (F32.mul macroPrecision macroRecall) (F32.fin 2))
    (F32.add macroPrecision macroRecall)
  let averageAccuracy := F32.div acc.2.2 numClass
  pure (macroPrecision, macroRecall, macroFMeasure, averageAccuracy)

/-- A `float32` value that is NaN, infinite, or a finite value that `round32` leaves as it
is, that is, a value of the binary32 grid. -/
def F32.OnGrid : F32 → Prop
  | .fin q => round32 q = .fin q
  | _ => True

/-! ## Slices -/

theorem bump_spec (xs : List Int) (i : Int) (h0 : 0 ≤ i) (h1 : i < xs.length) :
    ∃ ys, bump xs i = some ys ∧ ys.length = xs.length ∧
      ∀ j : Nat, counter ys j = counter xs j + ind ((j : Int) = i) := by
  obtain ⟨k, rfl⟩ := Int.eq_ofNat_of_zero_le h0
  have hk : k < xs.length := by exact_mod_cast h1
  refine ⟨xs.set k (xs[k] + 1), ?_, by simp, ?_⟩
  · simp [bump, sliceGet, sliceSet, hk]
  · intro j
    by_cases hj : j = k
    · subst hj
      simp [counter, ind, List.getD_eq_getElem?_getD, hk]
    · have hj' : ¬ ((j : Int) = (k : Int)) := by exact_mod_cast hj
      have hj'' : ¬ k = j := fun h => hj h.symm
      simp [counter, ind, List.getD_eq_getElem?_getD, List.getElem?_set, hj', hj'']

/-! ## `Add` -/

theorem Add_spec (md : Data) (classID pred answer : Int) (hwf : WellFormed md)
    (h0 : 0 ≤ classID) (h1 : classID < md.numClass) :
    ∃ md', Add md classID pred answer = some md' ∧ CachesZero md' ∧
      CountersShift md md'
        (fun j => ind ((j : Int) = classID ∧ pred = 1 ∧ answer = 1))
        (fun j => ind ((j : Int) = classID ∧ pred = 1 ∧ answer = 0))
        (fun j => ind ((j : Int) = classID ∧ pred = 0 ∧ answer = 1))
        (fun j => ind ((j : Int) = classID ∧ ¬ (pred = 1 ∧ answer = 1) ∧
          ¬ (pred = 1 ∧ answer = 0) ∧ ¬ (pred = 0 ∧ answer = 1))) := by
  obtain ⟨h_tp, h_fp, h_fn, h_tn⟩ := hwf
  by_cases c1 : pred = 1 ∧ answer = 1
  · obtain ⟨ys, hys, hlen, hcnt⟩ := bump_spec md.tp classID h0 (by omega)
    refine ⟨_, by simp [Add, c1, hys]; rfl, by simp [CachesZero], ?_⟩
    refine ⟨rfl, hlen, rfl, rfl, rfl, fun j => ?_⟩
    obtain ⟨rfl, rfl⟩ := c1
    simp [hcnt j, ind]
  · by_cases c2 : pred = 1 ∧ answer = 0
    · obtain ⟨ys, hys, hlen, hcnt⟩ := bump_spec md.fp classID h0 (by omega)
      refine ⟨_, by simp [Add, c1, c2, hys]; rfl, by simp [CachesZero], ?_⟩
      refine ⟨rfl, rfl, hlen, rfl, rfl, fun j => ?_⟩
      obtain ⟨rfl, rfl⟩ := c2
      simp [hcnt j, ind]
    · by_cases c3 : pred = 0 ∧ answer = 1
      · obtain ⟨ys, hys, hlen, hcnt⟩ := bump_spec md.fn classID h0 (by omega)
        refine ⟨_, by simp [Add, c1, c2, c3, hys]; rfl, by simp [CachesZero], ?_⟩
        refine ⟨rfl, rfl, rfl, hlen, rfl, fun j => ?_⟩
        obtain ⟨rfl, rfl⟩ := c3
        simp [hcnt j, ind]
      · obtain ⟨ys, hys, hlen, hcnt⟩ := bump_spec md.tn classID h0 (by omega)
        refine ⟨_, by simp [Add, c1, c2, c3, hys]; rfl, by simp [CachesZero], ?_⟩
        refine ⟨rfl, rfl, rfl, rfl, hlen, fun j => ?_⟩
        simp [hcnt j, ind, c1, c2, c3]

/-! ## `ToOneHot` -/

theorem ToOneHot_ok (classID numClass : Int) (h0 : 0 ≤ classID) (h1 : classID < numClass) :
    ToOneHot classID numClass =
      .ok ((List.replicate numClass.toNat (0 : ℚ)).set classID.toNat 1) := by
  have : ¬ (classID < 0 ∨ classID ≥ numClass) := by omega
  simp [ToOneHot, this]

theorem ToOneHot_error (classID numClass : Int) (h : classID < 0 ∨ classID ≥ numClass) :
    ToOneHot classID numClass = .error { classID := classID, numClass := numClass } := by
  simp [ToOneHot, h]

theorem oneHot_getD (n k j : Nat) (hk : k < n) :
    ((List.replicate n (0 : ℚ)).set k 1).getD j 0 = if j = k then 1 else 0 := by
  by_cases hj : j = k
  · subst hj
    simp [List.getD_eq_getElem?_getD, hk]
  · have hj' : ¬ k = j := fun h => hj h.symm
    simp only [List.getD_eq_getElem?_getD, List.getElem?_set, hj', hj, if_false,
      List.getElem?_replicate]
    split <;> simp

/-- C2: `ToOneHot` returns an error exactly when `classID < 0` or `classID >= numClass`;
otherwise it returns a vector of length `numClass` whose entry at `classID` is 1 and whose
other entries are 0, so that its entries sum to 1. -/
theorem C2_ToOneHot_error_iff_and_one_hot (classID numClass : Int) :
    ((∃ e, ToOneHot classID numClass = .error e) ↔ (classID < 0 ∨ classID ≥ numClass)) ∧
    ((classID < 0 ∨ classID ≥ numClass) ∨
      ∃ r, ToOneHot classID numClass = .ok r ∧ (r.length : Int) = numClass ∧
        (∀ j : Nat, r.getD j 0 = if (j : Int) = classID then 1 else 0) ∧ r.sum = 1) := by
  by_cases h : classID < 0 ∨ classID ≥ numClass
  · exact ⟨⟨fun _ => h, fun _ => ⟨_, ToOneHot_error _ _ h⟩⟩, Or.inl h⟩
  · have h0 : 0 ≤ classID := by omega
    have h1 : classID < numClass := by omega
    have hk : classID.toNat < numClass.toNat := by omega
    refine ⟨⟨fun ⟨e, he⟩ => ?_, fun h' => absurd h' h⟩, Or.inr ⟨_, ToOneHot_ok _ _ h0 h1, ?_, ?_, ?_⟩⟩
    · rw [ToOneHot_ok _ _ h0 h1] at he
      cases he
    · simp
      omega
    · intro j
      rw [oneHot_getD _ _ _ hk]
      have : (j = classID.toNat) ↔ ((j : Int) = classID) := by omega
      simp only [this]
    · rw [List.sum_set]
      simp [hk]

/-! ## Loops of `Add` calls over the classes -/

theorem CountersShift.wellFormed {md1 md2 : Data} {d1 d2 d3 d4 : Nat → Int}
    (h : CountersShift md1 md2 d1 d2 d3 d4) (hwf : WellFormed md1) : WellFormed md2 := by
  obtain ⟨hn, l1, l2, l3, l4, -⟩ := h
  obtain ⟨w1, w2, w3, w4⟩ := hwf
  refine ⟨?_, ?_, ?_, ?_⟩ <;> simp [*]

theorem ind_lt_succ (j k : Nat) (P : Nat → Prop) [DecidablePred P] :
    ind (j < k ∧ P j) + ind ((j : Int) = (k : Int) ∧ P k) = ind (j < k + 1 ∧ P j) := by
  by_cases h1 : j < k
  · have h2 : ¬ ((j : Int) = (k : Int)) := by omega
    have h3 : j < k + 1 := by omega
    simp [ind, h1, h2, h3]
  · by_cases h2 : j = k
    · subst h2
      simp [ind]
    · have h3 : ¬ ((j : Int) = (k : Int)) := by omega
      have h4 : ¬ j < k + 1 := by omega
      simp [ind, h1, h3, h4]

/-- The loop `for j := 0; j < numClass; j++ { md.Add(j, pf j, af j) }`, cut after `k` rounds. -/
theorem addLoop_spec (md : Data) (hwf : WellFormed md) (body : Int → Data → Option Data)
    (pf af : Nat → Int)
    (hbody : ∀ (j : Nat) (st : Data), (j : Int) < md.numClass →
      body j st = Add st j (pf j) (af j))
    (k : Nat) (hk : (k : Int) ≤ md.numClass) :
    ∃ st, (List.range k).foldlM (fun st (j : Nat) => body (j : Int) st) md = some st ∧
      (k = 0 → st = md) ∧ (0 < k → CachesZero st) ∧
      CountersShift md st
        (fun j => ind (j < k ∧ (pf j = 1 ∧ af j = 1)))
        (fun j => ind (j < k ∧ (pf j = 1 ∧ af j = 0)))
        (fun j => ind (j < k ∧ (pf j = 0 ∧ af j = 1)))
        (fun j => ind (j < k ∧ (¬ (pf j = 1 ∧ af j = 1) ∧
          ¬ (pf j = 1 ∧ af j = 0) ∧ ¬ (pf j = 0 ∧ af j = 1)))) := by
  induction k with
  | zero =>
    refine ⟨md, by simp, fun _ => rfl, fun h => absurd h (by omega), ?_⟩
    refine ⟨rfl, rfl, rfl, rfl, rfl, fun j => ?_⟩
    simp [ind]
  | succ k ih =>
    obtain ⟨st, hst, -, -, hshift⟩ := ih (by omega)
    have hwf' : WellFormed st := hshift.wellFormed hwf
    have hn : st.numClass = md.numClass := hshift.1
    obtain ⟨st', hadd, hcache, hshift'⟩ :=
      Add_spec st (k : Int) (pf k) (af k) hwf' (by omega) (by omega)
    refine ⟨st', ?_, fun h => absurd h (by omega), fun _ => hcache, ?_⟩
    · rw [List.range_succ, List.foldlM_append, hst]
      simp [hbody k st (by omega), hadd]
    · obtain ⟨_, a1, a2, a3, a4, ha⟩ := hshift
      obtain ⟨b0, b1, b2, b3, b4, hb⟩ := hshift'
      refine ⟨b0.trans hn, b1.trans a1, b2.trans a2, b3.trans a3, b4.trans a4, fun j => ?_⟩
      obtain ⟨x1, x2, x3, x4⟩ := ha j
      obtain ⟨y1, y2, y3, y4⟩ := hb j
      refine ⟨?_, ?_, ?_, ?_⟩
      · rw [y1, x1, add_assoc]
        exact congrArg _ (ind_lt_succ j k (fun j => pf j = 1 ∧ af j = 1))
      · rw [y2, x2, add_assoc]
        exact congrArg _ (ind_lt_succ j k (fun j => pf j = 1 ∧ af j = 0))
      · rw [y3, x3, add_assoc]
        exact congrArg _ (ind_lt_succ j k (fun j => pf j = 0 ∧ af j = 1))
      · rw [y4, x4, add_assoc]
        exact congrArg _ (ind_lt_succ j k (fun j => ¬ (pf j = 1 ∧ af j = 1) ∧
          ¬ (pf j = 1 ∧ af j = 0) ∧ ¬ (pf j = 0 ∧ af j = 1)))

/-! ## `AddClassID` -/

theorem sliceGet_oneHot (n k j : Nat) (hk : k < n) (hj : j < n) :
    sliceGet ((List.replicate n (0 : ℚ)).set k 1) (j : Int) = some (if j = k then 1 else 0) := by
  have h := oneHot_getD n k j hk
  have hlen : j < ((List.replicate n (0 : ℚ)).set k 1).length := by simpa using hj
  simp only [sliceGet, Int.toNat_ofNat, Int.ofNat_nonneg, if_true]
  rw [List.getElem?_eq_getElem hlen]
  rw [List.getD_eq_getElem _ _ hlen] at h
  rw [h]

theorem floatToInt_ite (c : Prop) [Decidable c] :
    floatToInt (if c then (1 : ℚ) else 0) = if c then 1 else 0 := by
  split <;> simp [floatToInt]

/-- An in-range `AddClassID` call on a well-formed accumulator. -/
theorem AddClassID_ok (md : Data) (hwf : WellFormed md) (p a : Int)
    (hp0 : 0 ≤ p) (hp1 : p < md.numClass) (ha0 : 0 ≤ a) (ha1 : a < md.numClass) :
    ∃ md', AddClassID md p a = some (md', none) ∧ CachesZero md' ∧
      CountersShift md md'
        (fun j => ind ((j : Int) = p ∧ (j : Int) = a))
        (fun j => ind ((j : Int) = p ∧ (j : Int) ≠ a))
        (fun j => ind ((j : Int) ≠ p ∧ (j : Int) = a))
        (fun j => ind ((j : Int) < md.numClass ∧ (j : Int) ≠ p ∧ (j : Int) ≠ a)) := by
  have hpk : p.toNat < md.numClass.toNat := by omega
  have hak : a.toNat < md.numClass.toNat := by omega
  obtain ⟨st, hst, -, hcache, hshift⟩ := addLoop_spec md hwf
    (fun j st => do
      let x ← sliceGet ((List.replicate md.numClass.toNat (0 : ℚ)).set p.toNat 1) j
      let y ← sliceGet ((List.replicate md.numClass.toNat (0 : ℚ)).set a.toNat 1) j
      Add st j (floatToInt x) (floatToInt y))
    (fun j => if j = p.toNat then 1 else 0) (fun j => if j = a.toNat then 1 else 0)
    (by
      intro j st hj
      have hj' : j < md.numClass.toNat := by omega
      simp only [sliceGet_oneHot _ _ _ hpk hj', sliceGet_oneHot _ _ _ hak hj',
        Option.bind_eq_bind, Option.some_bind, floatToInt_ite])
    md.numClass.toNat (by omega)
  refine ⟨st, ?_, hcache (by omega), ?_⟩
  · simp only [AddClassID, ToOneHot_ok _ _ hp0 hp1, ToOneHot_ok _ _ ha0 ha1, forRange]
    rw [hst]
    rfl
  · obtain ⟨e0, e1, e2, e3, e4, hcnt⟩ := hshift
    refine ⟨e0, e1, e2, e3, e4, fun j => ?_⟩
    obtain ⟨c1, c2, c3, c4⟩ := hcnt j
    have hjp : (j = p.toNat) ↔ ((j : Int) = p) := by omega
    have hja : (j = a.toNat) ↔ ((j : Int) = a) := by omega
    have hjn : (j < md.numClass.toNat) ↔ ((j : Int) < md.numClass) := by omega
    refine ⟨?_, ?_, ?_, ?_⟩
    · rw [c1]; congr 1
      by_cases x : (j : Int) = p <;> by_cases y : (j : Int) = a <;>
        by_cases z : (j : Int) < md.numClass <;> simp [ind, hjp, hja, hjn, x, y, z] <;> omega
    · rw [c2]; congr 1
      by_cases x : (j : Int) = p <;> by_cases y : (j : Int) = a <;>
        by_cases z : (j : Int) < md.numClass <;> simp [ind, hjp, hja, hjn, x, y, z] <;> omega
    · rw [c3]; congr 1
      by_cases x : (j : Int) = p <;> by_cases y : (j : Int) = a <;>
        by_cases z : (j : Int) < md.numClass <;> simp [ind, hjp, hja, hjn, x, y, z] <;> omega
    · rw [c4]; congr 1
      by_cases x : (j : Int) = p <;> by_cases y : (j : Int) = a <;>
        by_cases z : (j : Int) < md.numClass <;> simp [ind, hjp, hja, hjn, x, y, z]

/-- C5: for every accumulator (well formed or not) and all integers `predClassID`,
`answerClassID`, `AddClassID` returns an error exactly when one of the two lies outside
`[0, numClass)`, and whenever it returns an error the state it leaves is the state it was
given, all nine fields included. -/
theorem C5_AddClassID_error_iff_and_state_kept (md : Data) (predClassID answerClassID : Int) :
    ((∃ md' e, AddClassID md predClassID answerClassID = some (md', some e)) ↔
      (predClassID < 0 ∨ predClassID ≥ md.numClass ∨
        answerClassID < 0 ∨ answerClassID ≥ md.numClass)) ∧
    (∀ md' e, AddClassID md predClassID answerClassID = some (md', some e) → md' = md) := by
  by_cases hp : predClassID < 0 ∨ predClassID ≥ md.numClass
  · have hrun : AddClassID md predClassID answerClassID =
        some (md, some { classID := predClassID, numClass := md.numClass }) := by
      simp [AddClassID, ToOneHot_error _ _ hp]
    refine ⟨⟨fun _ => by omega, fun _ => ⟨_, _, hrun⟩⟩, fun md' e h => ?_⟩
    rw [hrun] at h
    simp only [Option.some.injEq, Prod.mk.injEq] at h
    exact h.1.symm
  · have hp0 : 0 ≤ predClassID := by omega
    have hp1 : predClassID < md.numClass := by omega
    by_cases ha : answerClassID < 0 ∨ answerClassID ≥ md.numClass
    · have hrun : AddClassID md predClassID answerClassID =
          some (md, some { classID := answerClassID, numClass := md.numClass }) := by
        simp [AddClassID, ToOneHot_ok _ _ hp0 hp1, ToOneHot_error _ _ ha]
      refine ⟨⟨fun _ => by omega, fun _ => ⟨_, _, hrun⟩⟩, fun md' e h => ?_⟩
      rw [hrun] at h
      simp only [Option.some.injEq, Prod.mk.injEq] at h
      exact h.1.symm
    · have ha0 : 0 ≤ answerClassID := by omega
      have ha1 : answerClassID < md.numClass := by omega
      have hno : ∀ md' e, AddClassID md predClassID answerClassID ≠ some (md', some e) := by
        intro md' e h
        simp only [AddClassID, ToOneHot_ok _ _ hp0 hp1, ToOneHot_ok _ _ ha0 ha1] at h
        cases hloop : forRange md.numClass (fun j st => do
            let p ← sliceGet ((List.replicate md.numClass.toNat (0 : ℚ)).set
              predClassID.toNat 1) j
            let a ← sliceGet ((List.replicate md.numClass.toNat (0 : ℚ)).set
              answerClassID.toNat 1) j
            Add st j (floatToInt p) (floatToInt a)) md with
        | none => rw [hloop] at h; cases h
        | some st => rw [hloop] at h; cases h
      refine ⟨⟨fun ⟨md', e, h⟩ => absurd h (hno md' e), fun h => by omega⟩,
        fun md' e h => absurd h (hno md' e)⟩

/-! ## The readers `Total`, `TotalTP`, `TotalFP`, `TotalFN`, `TotalTN` -/

theorem sumLoop_spec (f : Nat → Int) (body : Int → Int → Option Int) (n : Nat)
    (hbody : ∀ (j : Nat) (r : Int), j < n → body j r = some (r + f j))
    (k : Nat) (hk : k ≤ n) (init : Int) :
    (List.range k).foldlM (fun r (j : Nat) => body (j : Int) r) init =
      some (init + ((List.range k).map f).sum) := by
  induction k with
  | zero => simp
  | succ k ih =>
    rw [List.range_succ, List.foldlM_append, ih (by omega)]
    simp [hbody k _ (by omega), add_assoc]

theorem sliceGet_counter (xs : List Int) (j : Nat) (hj : j < xs.length) :
    sliceGet xs (j : Int) = some (counter xs j) := by
  simp [sliceGet, counter, List.getD_eq_getElem?_getD, List.getElem?_eq_getElem hj]

theorem sum_map_counter (xs : List Int) (k : Nat) (hk : k ≤ xs.length) :
    ((List.range k).map (counter xs)).sum = (xs.take k).sum := by
  induction k with
  | zero => simp
  | succ k ih =>
    rw [List.range_succ, List.map_append, List.sum_append, ih (by omega),
      List.sum_take_succ xs k (by omega)]
    simp [counter, List.getD_eq_getElem?_getD, List.getElem?_eq_getElem (show k < xs.length by omega)]

theorem sum_map_counter_length (xs : List Int) :
    ((List.range xs.length).map (counter xs)).sum = xs.sum := by
  rw [sum_map_counter xs xs.length le_rfl, List.take_length]

theorem sumSlice_spec (xs : List Int) (n : Int) (hlen : (xs.length : Int) = n) :
    forRange n (fun classID r => do
      let a ← sliceGet xs classID
      pure (r + a)) 0 = some xs.sum := by
  have hn : n.toNat = xs.length := by omega
  have h := sumLoop_spec (counter xs) (fun classID r => do
      let a ← sliceGet xs classID
      pure (r + a)) xs.length
    (fun j r hj => by simp [sliceGet_counter xs j hj]) xs.length le_rfl 0
  rw [sum_map_counter_length, zero_add] at h
  rw [forRange, hn]
  exact h

theorem TotalTP_eq (md : Data) (hwf : WellFormed md) (hc : md.totalTP ≤ 0) :
    TotalTP md = some md.tp.sum := by
  have h : ¬ md.totalTP > 0 := by omega
  simp only [TotalTP, h, if_false]
  exact sumSlice_spec md.tp md.numClass hwf.1

theorem TotalFP_eq (md : Data) (hwf : WellFormed md) (hc : md.totalFP ≤ 0) :
    TotalFP md = some md.fp.sum := by
  have h : ¬ md.totalFP > 0 := by omega
  simp only [TotalFP, h, if_false]
  exact sumSlice_spec md.fp md.numClass hwf.2.1

theorem TotalFN_eq (md : Data) (hwf : WellFormed md) (hc : md.totalFN ≤ 0) :
    TotalFN md = some md.fn.sum := by
  have h : ¬ md.totalFN > 0 := by omega
  simp only [TotalFN, h, if_false]
  exact sumSlice_spec md.fn md.numClass hwf.2.2.1

theorem TotalTN_eq (md : Data) (hwf : WellFormed md) (hc : md.totalTN ≤ 0) :
    TotalTN md = some md.tn.sum := by
  have h : ¬ md.totalTN > 0 := by omega
  simp only [TotalTN, h, if_false]
  exact sumSlice_spec md.tn md.numClass hwf.2.2.2

theorem Total_eq (md : Data) (hwf : WellFormed md) (hc : md.total ≤ 0) :
    Total md = some (((List.range md.numClass.toNat).map (classCount md)).sum) := by
  have h : ¬ md.total > 0 := by omega
  obtain ⟨w1, w2, w3, w4⟩ := hwf
  have hsum := sumLoop_spec (classCount md) (fun classID r => do
      let a ← sliceGet md.tp classID
      let b ← sliceGet md.fp classID
      let c ← sliceGet md.fn classID
      let d ← sliceGet md.tn classID
      pure (r + (a + b + c + d))) md.numClass.toNat
    (fun j r hj => by
      simp [sliceGet_counter md.tp j (by omega), sliceGet_counter md.fp j (by omega),
        sliceGet_counter md.fn j (by omega), sliceGet_counter md.tn j (by omega), classCount])
    md.numClass.toNat le_rfl 0
  rw [zero_add] at hsum
  simp only [Total, h, if_false, forRange]
  exact hsum

theorem sum_classCount (md : Data) (hwf : WellFormed md) :
    ((List.range md.numClass.toNat).map (classCount md)).sum =
      md.tp.sum + md.fp.sum + md.fn.sum + md.tn.sum := by
  obtain ⟨w1, w2, w3, w4⟩ := hwf
  have e1 : md.numClass.toNat = md.tp.length := by omega
  have e2 : md.numClass.toNat = md.fp.length := by omega
  have e3 : md.numClass.toNat = md.fn.length := by omega
  have e4 : md.numClass.toNat = md.tn.length := by omega
  have key : ∀ n : Nat, ((List.range n).map (classCount md)).sum =
      ((List.range n).map (counter md.tp)).sum + ((List.range n).map (counter md.fp)).sum +
      ((List.range n).map (counter md.fn)).sum + ((List.range n).map (counter md.tn)).sum := by
    intro n
    induction n with
    | zero => simp
    | succ n ih =>
      simp only [List.range_succ, List.map_append, List.sum_append, ih, List.map_cons,
        List.map_nil, List.sum_cons, List.sum_nil, classCount]
      ring
  rw [key]
  conv_lhs =>
    rw [e1, sum_map_counter_length, ← e1, e2, sum_map_counter_length, ← e2, e3,
      sum_map_counter_length, ← e3, e4, sum_map_counter_length]

/-! ## Reachable states -/

theorem New_ok (numClass : Int) (h : 0 ≤ numClass) :
    New numClass = some
      { numClass := numClass, tp := List.replicate numClass.toNat 0,
        fp := List.replicate numClass.toNat 0, fn := List.replicate numClass.toNat 0,
        tn := List.replicate numClass.toNat 0,
        total := 0, totalTP := 0, totalFP := 0, totalFN := 0, totalTN := 0 } := by
  have h' : ¬ numClass < 0 := by omega
  simp [New, makeSlice, h']

theorem New_none (numClass : Int) (h : numClass < 0) : New numClass = none := by
  simp [New, makeSlice, h]

theorem New_inv (numClass : Int) (md : Data) (h : New numClass = some md) :
    Inv numClass md ∧ ∀ j, counter md.tp j = 0 ∧ counter md.fp j = 0 ∧
      counter md.fn j = 0 ∧ counter md.tn j = 0 := by
  by_cases hn : numClass < 0
  · rw [New_none _ hn] at h
    cases h
  · rw [New_ok _ (by omega)] at h
    cases h
    refine ⟨⟨rfl, ?_, by simp [CachesZero]⟩, fun j => ?_⟩
    · simp only [WellFormed, List.length_replicate]
      omega
    · simp only [counter, List.getD_eq_getElem?_getD, List.getElem?_replicate]
      split <;> simp

theorem bump_none (xs : List Int) (i : Int) (h : i < 0 ∨ (xs.length : Int) ≤ i) :
    bump xs i = none := by
  by_cases h0 : 0 ≤ i
  · have h1 : xs.length ≤ i.toNat := by omega
    simp [bump, sliceGet, h0, List.getElem?_eq_none h1]
  · simp [bump, sliceGet, h0]

theorem Add_none (md : Data) (classID pred answer : Int) (hwf : WellFormed md)
    (h : classID < 0 ∨ md.numClass ≤ classID) : Add md classID pred answer = none := by
  obtain ⟨w1, w2, w3, w4⟩ := hwf
  have b1 := bump_none md.tp classID (by omega)
  have b2 := bump_none md.fp classID (by omega)
  have b3 := bump_none md.fn classID (by omega)
  have b4 := bump_none md.tn classID (by omega)
  unfold Add
  split_ifs <;> simp [b1, b2, b3, b4]

theorem Add_inv (numClass : Int) (md md' : Data) (classID pred answer : Int)
    (hinv : Inv numClass md) (h : Add md classID pred answer = some md') : Inv numClass md' := by
  obtain ⟨hn, hwf, -⟩ := hinv
  by_cases hr : classID < 0 ∨ md.numClass ≤ classID
  · rw [Add_none md classID pred answer hwf hr] at h
    cases h
  · obtain ⟨st, hst, hcache, hshift⟩ :=
      Add_spec md classID pred answer hwf (by omega) (by omega)
    rw [hst] at h
    cases h
    exact ⟨hshift.1.trans hn, hshift.wellFormed hwf, hcache⟩

theorem foldlM_preserves {σ α : Type} (P : σ → Prop) (f : σ → α → Option σ)
    (hf : ∀ s a s', P s → f s a = some s' → P s') :
    ∀ (l : List α) (s s' : σ), P s → l.foldlM f s = some s' → P s' := by
  intro l
  induction l with
  | nil =>
    intro s s' hs h
    simp only [List.foldlM_nil, Option.pure_def, Option.some.injEq] at h
    exact h ▸ hs
  | cons a l ih =>
    intro s s' hs h
    rw [List.foldlM_cons] at h
    cases hfa : f s a with
    | none => rw [hfa] at h; cases h
    | some s1 =>
      rw [hfa] at h
      exact ih s1 s' (hf s a s1 hs hfa) h

theorem addBody_inv (numClass : Int) (f g : Int → Option Int) (s : Data) (j : Nat)
    (s' : Data) (hs : Inv numClass s)
    (h : (do
      let x ← f j
      let y ← g j
      Add s j x y) = some s') : Inv numClass s' := by
  simp only [Option.bind_eq_bind, Option.bind_eq_some] at h
  obtain ⟨x, -, y, -, hadd⟩ := h
  exact Add_inv numClass s s' _ _ _ hs hadd

theorem AddLabels_inv (numClass : Int) (md md' : Data) (ps as : List Int)
    (e : Option OneHotError) (hinv : Inv numClass md)
    (h : AddLabels md ps as = some (md', e)) : Inv numClass md' := by
  simp only [AddLabels, Option.bind_eq_bind, Option.bind_eq_some, Option.pure_def,
    Option.some.injEq, Prod.mk.injEq] at h
  obtain ⟨st, hloop, rfl, -⟩ := h
  refine foldlM_preserves (Inv numClass) _ ?_ _ md st hinv hloop
  intro s j s' hs hbody
  exact addBody_inv numClass (sliceGet ps) (sliceGet as) s j s' hs hbody

theorem AddClassID_inv (numClass : Int) (md md' : Data) (p a : Int)
    (e : Option OneHotError) (hinv : Inv numClass md)
    (h : AddClassID md p a = some (md', e)) : Inv numClass md' := by
  unfold AddClassID at h
  split at h
  · cases h; exact hinv
  · split at h
    · cases h; exact hinv
    · rename_i _ predOneHot _ _ answerOneHot _
      simp only [Option.bind_eq_bind, Option.bind_eq_some, Option.pure_def,
        Option.some.injEq, Prod.mk.injEq] at h
      obtain ⟨st, hloop, rfl, -⟩ := h
      refine foldlM_preserves (Inv numClass) _ ?_ _ md st hinv hloop
      intro s j s' hs hbody
      exact addBody_inv numClass (fun j => (sliceGet predOneHot j).map floatToInt)
        (fun j => (sliceGet answerOneHot j).map floatToInt) s j s' hs (by
          simp only [Option.bind_eq_bind, Option.bind_eq_some, Option.map_eq_some'] at hbody ⊢
          obtain ⟨x, hx, y, hy, hadd⟩ := hbody
          exact ⟨_, ⟨x, hx, rfl⟩, _, ⟨y, hy, rfl⟩, hadd⟩)

theorem Call_run_inv (numClass : Int) (md : Data) (c : Call) (md' : Data)
    (hinv : Inv numClass md) (h : Call.run md c = some md') : Inv numClass md' := by
  cases c with
  | add classID pred answer => exact Add_inv numClass md md' _ _ _ hinv h
  | addClassID p a =>
    simp only [Call.run, Option.map_eq_some', Prod.exists, exists_and_right, exists_eq_right] at h
    obtain ⟨e, he⟩ := h
    exact AddClassID_inv numClass md md' p a e hinv he
  | addLabels ps as =>
    simp only [Call.run, Option.map_eq_some', Prod.exists, exists_and_right, exists_eq_right] at h
    obtain ⟨e, he⟩ := h
    exact AddLabels_inv numClass md md' ps as e hinv he

theorem Reachable_inv (numClass : Int) (md : Data) (h : Reachable numClass md) :
    Inv numClass md := by
  obtain ⟨md0, cs, hnew, hrun⟩ := h
  exact foldlM_preserves (Inv numClass) Call.run (Call_run_inv numClass) cs md0 md
    (New_inv numClass md0 hnew).1 hrun

/-! ## Sequences of `Add` calls -/

theorem Add_classCount (md : Data) (classID pred answer : Int) (hwf : WellFormed md)
    (h0 : 0 ≤ classID) (h1 : classID < md.numClass) :
    ∃ md', Add md classID pred answer = some md' ∧ md'.numClass = md.numClass ∧
      WellFormed md' ∧ CachesZero md' ∧
      ∀ j : Nat, classCount md' j = classCount md j + ind ((j : Int) = classID) := by
  obtain ⟨md', hadd, hcache, hshift⟩ := Add_spec md classID pred answer hwf h0 h1
  refine ⟨md', hadd, hshift.1, hshift.wellFormed hwf, hcache, fun j => ?_⟩
  obtain ⟨-, -, -, -, -, hcnt⟩ := hshift
  obtain ⟨e1, e2, e3, e4⟩ := hcnt j
  simp only [classCount, e1, e2, e3, e4, ind]
  split_ifs <;> omega

theorem runAdds_spec (cs : List (Int × Int × Int)) :
    ∀ md0 : Data, WellFormed md0 → (∀ c ∈ cs, 0 ≤ c.1 ∧ c.1 < md0.numClass) →
      ∃ md, runAdds md0 cs = some md ∧ md.numClass = md0.numClass ∧ WellFormed md ∧
        (CachesZero md0 → CachesZero md) ∧
        ∀ j : Nat, classCount md j =
          classCount md0 j + (cs.countP (fun c => decide (c.1 = (j : Int))) : Nat) := by
  induction cs with
  | nil =>
    intro md0 hwf _
    exact ⟨md0, rfl, rfl, hwf, id, fun j => by simp⟩
  | cons c cs ih =>
    intro md0 hwf hin
    obtain ⟨hc0, hc1⟩ := hin c (List.mem_cons_self _ _)
    obtain ⟨md1, hadd, hn1, hwf1, hcache1, hcnt1⟩ :=
      Add_classCount md0 c.1 c.2.1 c.2.2 hwf hc0 hc1
    obtain ⟨md, hrun, hn, hwf2, hcache2, hcnt2⟩ := ih md1 hwf1
      (fun c' hc' => by rw [hn1]; exact hin c' (List.mem_cons_of_mem _ hc'))
    refine ⟨md, ?_, hn.trans hn1, hwf2, fun _ => hcache2 hcache1, fun j => ?_⟩
    · simp only [runAdds, List.foldlM_cons, hadd, Option.bind_eq_bind, Option.some_bind]
      exact hrun
    · rw [hcnt2 j, hcnt1 j, List.countP_cons]
      by_cases x : (j : Int) = c.1
      · have e1 : ind ((j : Int) = c.1) = 1 := by simp [ind, x]
        have e2 : decide (c.1 = (j : Int)) = true := by simp [x.symm]
        rw [e1, e2]
        push_cast
        simp only [if_true]
        ring
      · have e1 : ind ((j : Int) = c.1) = 0 := by simp [ind, x]
        have e2 : decide (c.1 = (j : Int)) = false := by
          simp only [decide_eq_false_iff_not]
          exact fun h => x h.symm
        rw [e1, e2]
        simp

/-- C6: for `numClass >= 1` and every finite sequence of `Add` calls with in-range class
identifiers applied to `New(numClass)`, no call panics, the five readers return, and
`Total() == TotalTP() + TotalFP() + TotalFN() + TotalTN()`. -/
theorem C6_Total_is_sum_of_four_totals (numClass : Int) (hn : 1 ≤ numClass)
    (cs : List (Int × Int × Int)) (hin : ∀ c ∈ cs, 0 ≤ c.1 ∧ c.1 < numClass) :
    ∃ md0 md t tp fp fn tn, New numClass = some md0 ∧ runAdds md0 cs = some md ∧
      Total md = some t ∧ TotalTP md = some tp ∧ TotalFP md = some fp ∧
      TotalFN md = some fn ∧ TotalTN md = some tn ∧ t = tp + fp + fn + tn := by
  have hnew := New_ok numClass (by omega)
  obtain ⟨⟨hn0, hwf0, hcache0⟩, -⟩ := New_inv numClass _ hnew
  obtain ⟨md, hrun, -, hwf, hcache, -⟩ := runAdds_spec cs _ hwf0 (by simpa using hin)
  obtain ⟨c0, c1, c2, c3, c4⟩ := hcache hcache0
  exact ⟨_, md, _, _, _, _, _, hnew, hrun, Total_eq md hwf (by omega),
    TotalTP_eq md hwf (by omega), TotalFP_eq md hwf (by omega), TotalFN_eq md hwf (by omega),
    TotalTN_eq md hwf (by omega), sum_classCount md hwf⟩

/-- C6 at a concrete input: three `Add` calls on a 2-class accumulator. -/
theorem C6_Total_is_sum_of_four_totals_witness :
    ∃ md0 md t tp fp fn tn, New 2 = some md0 ∧
      runAdds md0 [(0, 1, 1), (1, 0, 1), (1, 5, 7)] = some md ∧
      Total md = some t ∧ TotalTP md = some tp ∧ TotalFP md = some fp ∧
      TotalFN md = some fn ∧ TotalTN md = some tn ∧ t = tp + fp + fn + tn :=
  C6_Total_is_sum_of_four_totals 2 (by decide) [(0, 1, 1), (1, 0, 1), (1, 5, 7)] (by decide)

/-- C7: for `numClass >= 1`, every finite sequence of `Add` calls with in-range class
identifiers and arbitrary integer `pred`, `answer` applied to `New(numClass)`, and every
class `c`, `tp[c] + fp[c] + fn[c] + tn[c]` is the number of calls of the sequence whose
`classID` argument is `c`. -/
theorem C7_classCount_is_number_of_calls (numClass : Int) (hn : 1 ≤ numClass)
    (cs : List (Int × Int × Int)) (hin : ∀ c ∈ cs, 0 ≤ c.1 ∧ c.1 < numClass) (c : Nat) :
    ∃ md0 md, New numClass = some md0 ∧ runAdds md0 cs = some md ∧
      counter md.tp c + counter md.fp c + counter md.fn c + counter md.tn c =
        (cs.countP (fun call => decide (call.1 = (c : Int))) : Nat) := by
  have hnew := New_ok numClass (by omega)
  obtain ⟨⟨hn0, hwf0, hcache0⟩, hzero⟩ := New_inv numClass _ hnew
  obtain ⟨md, hrun, -, -, -, hcnt⟩ := runAdds_spec cs _ hwf0 (by simpa using hin)
  refine ⟨_, md, hnew, hrun, ?_⟩
  have h := hcnt c
  obtain ⟨z1, z2, z3, z4⟩ := hzero c
  simp only [classCount, z1, z2, z3, z4] at h
  simpa using h

/-- C7 at a concrete input: class 1 of a 2-class accumulator after three `Add` calls. -/
theorem C7_classCount_is_number_of_calls_witness :
    ∃ md0 md, New 2 = some md0 ∧ runAdds md0 [(0, 1, 1), (1, 0, 1), (1, 5, 7)] = some md ∧
      counter md.tp 1 + counter md.fp 1 + counter md.fn 1 + counter md.tn 1 =
        (([(0, 1, 1), (1, 0, 1), (1, 5, 7)] : List (Int × Int × Int)).countP
          (fun call => decide (call.1 = ((1 : Nat) : Int))) : Nat) :=
  C7_classCount_is_number_of_calls 2 (by decide) [(0, 1, 1), (1, 0, 1), (1, 5, 7)]
    (by decide) 1

/-- C8: in every state reached from `New(numClass)` by `Add`, `AddClassID` and `AddLabels`
calls, the four counter slices have one entry per class, `TotalTP`, `TotalFP`, `TotalFN` and
`TotalTN` return the sum of all entries of `tp`, `fp`, `fn` and `tn`, and `Total` returns the
sum over all classes `c` of `tp[c] + fp[c] + fn[c] + tn[c]`. -/
theorem C8_totals_are_cross_class_sums (numClass : Int) (md : Data)
    (h : Reachable numClass md) :
    md.numClass = numClass ∧ WellFormed md ∧
    TotalTP md = some md.tp.sum ∧ TotalFP md = some md.fp.sum ∧
    TotalFN md = some md.fn.sum ∧ TotalTN md = some md.tn.sum ∧
    Total md = some (((List.range md.numClass.toNat).map
      (fun c => counter md.tp c + counter md.fp c + counter md.fn c + counter md.tn c)).sum) := by
  obtain ⟨hn, hwf, c0, c1, c2, c3, c4⟩ := Reachable_inv numClass md h
  exact ⟨hn, hwf, TotalTP_eq md hwf (by omega), TotalFP_eq md hwf (by omega),
    TotalFN_eq md hwf (by omega), TotalTN_eq md hwf (by omega), Total_eq md hwf (by omega)⟩

/-- C8 at a concrete state: the 2-class accumulator after `Add(0, 1, 1)`, `AddClassID(1, 0)`,
`AddClassID(7, 0)` (which returns an error) and `AddLabels([1, 1], [0, 1])`. -/
theorem C8_totals_are_cross_class_sums_witness :
    (⟨2, [1, 1], [1, 1], [1, 0], [0, 0], 0, 0, 0, 0, 0⟩ : Data).numClass = 2 ∧
    WellFormed ⟨2, [1, 1], [1, 1], [1, 0], [0, 0], 0, 0, 0, 0, 0⟩ ∧
    TotalTP ⟨2, [1, 1], [1, 1], [1, 0], [0, 0], 0, 0, 0, 0, 0⟩ = some ([1, 1] : List Int).sum ∧
    TotalFP ⟨2, [1, 1], [1, 1], [1, 0], [0, 0], 0, 0, 0, 0, 0⟩ = some ([1, 1] : List Int).sum ∧
    TotalFN ⟨2, [1, 1], [1, 1], [1, 0], [0, 0], 0, 0, 0, 0, 0⟩ = some ([1, 0] : List Int).sum ∧
    TotalTN ⟨2, [1, 1], [1, 1], [1, 0], [0, 0], 0, 0, 0, 0, 0⟩ = some ([0, 0] : List Int).sum ∧
    Total ⟨2, [1, 1], [1, 1], [1, 0], [0, 0], 0, 0, 0, 0, 0⟩ =
      some (((List.range (2 : Int).toNat).map
        (fun c => counter [1, 1] c + counter [1, 1] c + counter [1, 0] c +
          counter [0, 0] c)).sum) :=
  C8_totals_are_cross_class_sums 2 ⟨2, [1, 1], [1, 1], [1, 0], [0, 0], 0, 0, 0, 0, 0⟩
    ⟨⟨2, [0, 0], [0, 0], [0, 0], [0, 0], 0, 0, 0, 0, 0⟩,
      [.add 0 1 1, .addClassID 1 0, .addClassID 7 0, .addLabels [1, 1] [0, 1]],
      by decide, by decide⟩

/-- C9: from `New(3)`, the calls `AddClassID(0, 0)`, `AddClassID(1, 0)`, `AddClassID(2, 2)`
each return the nil error, and afterwards `TotalTP() == 2`, `TotalFP() == 1`,
`TotalFN() == 1`, `TotalTN() == 5` and `Total() == 9`. -/
theorem C9_three_class_scenario :
    ∃ md0 md1 md2 md3, New 3 = some md0 ∧
      AddClassID md0 0 0 = some (md1, none) ∧
      AddClassID md1 1 0 = some (md2, none) ∧
      AddClassID md2 2 2 = some (md3, none) ∧
      TotalTP md3 = some 2 ∧ TotalFP md3 = some 1 ∧ TotalFN md3 = some 1 ∧
      TotalTN md3 = some 5 ∧ Total md3 = some 9 :=
  ⟨⟨3, [0, 0, 0], [0, 0, 0], [0, 0, 0], [0, 0, 0], 0, 0, 0, 0, 0⟩,
    ⟨3, [1, 0, 0], [0, 0, 0], [0, 0, 0], [0, 1, 1], 0, 0, 0, 0, 0⟩,
    ⟨3, [1, 0, 0], [0, 1, 0], [1, 0, 0], [0, 1, 2], 0, 0, 0, 0, 0⟩,
    ⟨3, [1, 0, 1], [0, 1, 0], [1, 0, 0], [1, 2, 2], 0, 0, 0, 0, 0⟩,
    by decide, by decide, by decide, by decide, by decide, by decide, by decide, by decide,
    by decide⟩

/-! ## `AddLabels` -/

theorem addInOrder_eq_loop (md : Data) (ps as : List Int) (k : Nat)
    (hp : k ≤ ps.length) (ha : k ≤ as.length) :
    (List.range k).foldlM (fun st (j : Nat) => do
      let p ← sliceGet ps (j : Int)
      let a ← sliceGet as (j : Int)
      Add st (j : Int) p a) md = addInOrder md ps as k := by
  induction k with
  | zero => rfl
  | succ k ih =>
    rw [List.range_succ, List.foldlM_append, ih (by omega) (by omega), addInOrder]
    cases addInOrder md ps as k with
    | none => rfl
    | some st =>
      simp [sliceGet_counter ps k (by omega), sliceGet_counter as k (by omega)]

/-- C10: on a well-formed accumulator and for integer sequences `predLabels`, `answerLabels`
of length `numClass`, `AddLabels` returns the nil error, and the state it leaves is the state
obtained by calling `Add(j, predLabels[j], answerLabels[j])` for `j = 0, ..., numClass-1` in
that order (none of these calls panics). -/
theorem C10_AddLabels_is_Add_in_order (md : Data) (predLabels answerLabels : List Int)
    (hwf : WellFormed md) (hp : (predLabels.length : Int) = md.numClass)
    (ha : (answerLabels.length : Int) = md.numClass) :
    ∃ md', AddLabels md predLabels answerLabels = some (md', none) ∧
      addInOrder md predLabels answerLabels md.numClass.toNat = some md' := by
  obtain ⟨st, hst, -, -, -⟩ := addLoop_spec md hwf
    (fun j st => do
      let p ← sliceGet predLabels j
      let a ← sliceGet answerLabels j
      Add st j p a)
    (counter predLabels) (counter answerLabels)
    (by
      intro j st hj
      simp [sliceGet_counter predLabels j (by omega),
        sliceGet_counter answerLabels j (by omega)])
    md.numClass.toNat (by omega)
  refine ⟨st, ?_, ?_⟩
  · simp only [AddLabels, forRange]
    rw [hst]
    rfl
  · rw [← addInOrder_eq_loop md predLabels answerLabels md.numClass.toNat (by omega) (by omega)]
    exact hst

/-- C10 at a concrete input: two label vectors on a 3-class accumulator. -/
theorem C10_AddLabels_is_Add_in_order_witness :
    ∃ md', AddLabels ⟨3, [1, 2, 3], [4, 5, 6], [7, 8, 9], [10, 11, 12], 1, 2, 3, 4, 5⟩
        [1, 0, 1] [1, 1, 0] = some (md', none) ∧
      addInOrder ⟨3, [1, 2, 3], [4, 5, 6], [7, 8, 9], [10, 11, 12], 1, 2, 3, 4, 5⟩
        [1, 0, 1] [1, 1, 0] (3 : Int).toNat = some md' :=
  C10_AddLabels_is_Add_in_order
    ⟨3, [1, 2, 3], [4, 5, 6], [7, 8, 9], [10, 11, 12], 1, 2, 3, 4, 5⟩ [1, 0, 1] [1, 1, 0]
    (by decide) (by decide) (by decide)

/-! ## The constructor `New` -/

theorem sum_replicate_zero (n : Nat) : (List.replicate n (0 : Int)).sum = 0 := by
  simp

/-- C13: for `numClass >= 0`, `New(numClass)` returns an accumulator whose `numClass` field is
`numClass`, whose four counter slices have length `numClass` with every entry 0 and whose five
cached totals are 0; `Total`, `TotalTP`, `TotalFP`, `TotalFN` and `TotalTN` all return 0 on
it. -/
theorem C13_New_is_zeroed (numClass : Int) (h : 0 ≤ numClass) :
    ∃ md, New numClass = some md ∧ md.numClass = numClass ∧
      (md.tp.length : Int) = numClass ∧ (md.fp.length : Int) = numClass ∧
      (md.fn.length : Int) = numClass ∧ (md.tn.length : Int) = numClass ∧
      (∀ x ∈ md.tp, x = 0) ∧ (∀ x ∈ md.fp, x = 0) ∧
      (∀ x ∈ md.fn, x = 0) ∧ (∀ x ∈ md.tn, x = 0) ∧
      md.total = 0 ∧ md.totalTP = 0 ∧ md.totalFP = 0 ∧ md.totalFN = 0 ∧ md.totalTN = 0 ∧
      Total md = some 0 ∧ TotalTP md = some 0 ∧ TotalFP md = some 0 ∧
      TotalFN md = some 0 ∧ TotalTN md = some 0 := by
  have hnew := New_ok numClass h
  obtain ⟨⟨hn, hwf, hcache⟩, -⟩ := New_inv numClass _ hnew
  obtain ⟨w1, w2, w3, w4⟩ := hwf
  have hmem : ∀ x ∈ List.replicate numClass.toNat (0 : Int), x = 0 :=
    fun x hx => (List.mem_replicate.mp hx).2
  refine ⟨_, hnew, rfl, w1, w2, w3, w4, hmem, hmem, hmem, hmem, rfl, rfl, rfl, rfl, rfl,
    ?_, ?_, ?_, ?_, ?_⟩
  · rw [Total_eq _ ⟨w1, w2, w3, w4⟩ (le_refl (0 : Int)), sum_classCount _ ⟨w1, w2, w3, w4⟩]
    simp
  · rw [TotalTP_eq _ ⟨w1, w2, w3, w4⟩ (le_refl (0 : Int))]
    simp
  · rw [TotalFP_eq _ ⟨w1, w2, w3, w4⟩ (le_refl (0 : Int))]
    simp
  · rw [TotalFN_eq _ ⟨w1, w2, w3, w4⟩ (le_refl (0 : Int))]
    simp
  · rw [TotalTN_eq _ ⟨w1, w2, w3, w4⟩ (le_refl (0 : Int))]
    simp

/-- C13 at a concrete input: `New(2)`. -/
theorem C13_New_is_zeroed_witness :
    ∃ md, New 2 = some md ∧ md.numClass = 2 ∧
      (md.tp.length : Int) = 2 ∧ (md.fp.length : Int) = 2 ∧
      (md.fn.length : Int) = 2 ∧ (md.tn.length : Int) = 2 ∧
      (∀ x ∈ md.tp, x = 0) ∧ (∀ x ∈ md.fp, x = 0) ∧
      (∀ x ∈ md.fn, x = 0) ∧ (∀ x ∈ md.tn, x = 0) ∧
      md.total = 0 ∧ md.totalTP = 0 ∧ md.totalFP = 0 ∧ md.totalFN = 0 ∧ md.totalTN = 0 ∧
      Total md = some 0 ∧ TotalTP md = some 0 ∧ TotalFP md = some 0 ∧
      TotalFN md = some 0 ∧ TotalTN md = some 0 :=
  C13_New_is_zeroed 2 (by decide)

/-! ## The final `else` branch of `Add` -/

/-- C14 on the code: `Add(0, 2, 3)` on a fresh 1-class accumulator takes the final `else`
branch and adds 1 to `tn[0]`, although neither `pred` nor `answer` is 0. -/
theorem C14_Add_else_branch_takes_other_pairs :
    Add ⟨1, [0], [0], [0], [0], 0, 0, 0, 0, 0⟩ 0 2 3 =
      some ⟨1, [0], [0], [0], [1], 0, 0, 0, 0, 0⟩ := by
  decide

/-! ## The cached totals -/

theorem Add_cachesZero (md md' : Data) (classID pred answer : Int)
    (h : Add md classID pred answer = some md') : CachesZero md' := by
  unfold Add at h
  split_ifs at h <;>
    · simp only [Option.bind_eq_bind, Option.bind_eq_some, Option.pure_def,
        Option.some.injEq] at h
      obtain ⟨st, -, a, -, rfl⟩ := h
      simp [CachesZero]

/-- C15: every `Add` call that returns leaves `total`, `totalTP`, `totalFP`, `totalFN` and
`totalTN` equal to 0, whatever the accumulator it was given; and in every state reached from
`New` by `Add`, `AddClassID` and `AddLabels` calls the five cached fields are 0, so that each
of the five readers returns the freshly computed sum, never a cached value. -/
theorem C15_caches_are_zero (md md' : Data) (classID pred answer : Int)
    (hadd : Add md classID pred answer = some md')
    (numClass : Int) (st : Data) (hreach : Reachable numClass st) :
    (md'.total = 0 ∧ md'.totalTP = 0 ∧ md'.totalFP = 0 ∧ md'.totalFN = 0 ∧
      md'.totalTN = 0) ∧
    (st.total = 0 ∧ st.totalTP = 0 ∧ st.totalFP = 0 ∧ st.totalFN = 0 ∧ st.totalTN = 0) ∧
    Total st = some (((List.range st.numClass.toNat).map
      (fun c => counter st.tp c + counter st.fp c + counter st.fn c + counter st.tn c)).sum) ∧
    TotalTP st = some st.tp.sum ∧ TotalFP st = some st.fp.sum ∧
    TotalFN st = some st.fn.sum ∧ TotalTN st = some st.tn.sum := by
  obtain ⟨-, hwf, hcache⟩ := Reachable_inv numClass st hreach
  obtain ⟨c0, c1, c2, c3, c4⟩ := hcache
  exact ⟨Add_cachesZero md md' classID pred answer hadd, ⟨c0, c1, c2, c3, c4⟩,
    Total_eq st hwf (by omega), TotalTP_eq st hwf (by omega), TotalFP_eq st hwf (by omega),
    TotalFN_eq st hwf (by omega), TotalTN_eq st hwf (by omega)⟩

/-- C15 at a concrete input: an `Add` on an accumulator with stale nonzero caches, and the
state reached from `New(2)` by `Add(0, 1, 1)`, `AddClassID(1, 0)`, `AddLabels([1, 1], [0, 1])`. -/
theorem C15_caches_are_zero_witness :
    ∃ md', Add ⟨2, [1, 2], [3, 4], [5, 6], [7, 8], 36, 3, 7, 11, 15⟩ 1 0 1 = some md' ∧
      (md'.total = 0 ∧ md'.totalTP = 0 ∧ md'.totalFP = 0 ∧ md'.totalFN = 0 ∧
        md'.totalTN = 0) ∧
      TotalFN md' = some md'.fn.sum ∧
      TotalTP ⟨2, [1, 1], [1, 1], [1, 0], [0, 0], 0, 0, 0, 0, 0⟩ = some ([1, 1] : List Int).sum :=
  ⟨⟨2, [1, 2], [3, 4], [5, 7], [7, 8], 0, 0, 0, 0, 0⟩, by decide,
    (C15_caches_are_zero ⟨2, [1, 2], [3, 4], [5, 6], [7, 8], 36, 3, 7, 11, 15⟩
      ⟨2, [1, 2], [3, 4], [5, 7], [7, 8], 0, 0, 0, 0, 0⟩ 1 0 1 (by decide) 2
      ⟨2, [1, 1], [1, 1], [1, 0], [0, 0], 0, 0, 0, 0, 0⟩
      ⟨⟨2, [0, 0], [0, 0], [0, 0], [0, 0], 0, 0, 0, 0, 0⟩,
        [.add 0 1 1, .addClassID 1 0, .addLabels [1, 1] [0, 1]], by decide, by decide⟩).1,
    by decide,
    (C15_caches_are_zero ⟨2, [1, 2], [3, 4], [5, 6], [7, 8], 36, 3, 7, 11, 15⟩
      ⟨2, [1, 2], [3, 4], [5, 7], [7, 8], 0, 0, 0, 0, 0⟩ 1 0 1 (by decide) 2
      ⟨2, [1, 1], [1, 1], [1, 0], [0, 0], 0, 0, 0, 0, 0⟩
      ⟨⟨2, [0, 0], [0, 0], [0, 0], [0, 0], 0, 0, 0, 0, 0⟩,
        [.add 0 1 1, .addClassID 1 0, .addLabels [1, 1] [0, 1]], by decide,
        by decide⟩).2.2.2.1⟩

/-! ## `AddClassID` as `AddLabels` on one-hot vectors -/

theorem sliceGet_map {α β : Type} (f : α → β) (xs : List α) (i : Int) :
    sliceGet (xs.map f) i = (sliceGet xs i).map f := by
  unfold sliceGet
  split <;> simp

theorem AddLabels_truncated (md : Data) (P A : List ℚ) :
    AddLabels md (P.map floatToInt) (A.map floatToInt) =
      (forRange md.numClass (fun j st => do
        let x ← sliceGet P j
        let y ← sliceGet A j
        Add st j (floatToInt x) (floatToInt y)) md).bind (fun st => some (st, none)) := by
  have hbody : (fun (j : Int) (st : Data) => do
        let p ← sliceGet (P.map floatToInt) j
        let a ← sliceGet (A.map floatToInt) j
        Add st j p a) =
      (fun (j : Int) (st : Data) => do
        let x ← sliceGet P j
        let y ← sliceGet A j
        Add st j (floatToInt x) (floatToInt y)) := by
    funext j st
    rw [sliceGet_map, sliceGet_map]
    cases sliceGet P j <;> cases sliceGet A j <;> rfl
  unfold AddLabels
  rw [hbody]
  rfl

/-- C16: on a well-formed accumulator and for in-range `p` and `a`, `AddClassID(p, a)` returns
the nil error and leaves exactly the state that `AddLabels(P, A)` leaves, where `P` and `A`
are `ToOneHot(p, numClass)` and `ToOneHot(a, numClass)` truncated entrywise to `int`. -/
theorem C16_AddClassID_is_AddLabels_on_one_hot (md : Data) (p a : Int) (hwf : WellFormed md)
    (hp0 : 0 ≤ p) (hp1 : p < md.numClass) (ha0 : 0 ≤ a) (ha1 : a < md.numClass) :
    ∃ P A md', ToOneHot p md.numClass = .ok P ∧ ToOneHot a md.numClass = .ok A ∧
      AddClassID md p a = some (md', none) ∧
      AddLabels md (P.map floatToInt) (A.map floatToInt) = some (md', none) := by
  obtain ⟨md', hrun, -, -⟩ := AddClassID_ok md hwf p a hp0 hp1 ha0 ha1
  refine ⟨_, _, md', ToOneHot_ok _ _ hp0 hp1, ToOneHot_ok _ _ ha0 ha1, hrun, ?_⟩
  rw [AddLabels_truncated, ← hrun]
  simp only [AddClassID, ToOneHot_ok _ _ hp0 hp1, ToOneHot_ok _ _ ha0 ha1]
  rfl

/-- C16 at a concrete input: class 2 predicted, class 0 answered, on a 3-class accumulator. -/
theorem C16_AddClassID_is_AddLabels_on_one_hot_witness :
    ∃ P A md', ToOneHot 2 3 = .ok P ∧ ToOneHot 0 3 = .ok A ∧
      AddClassID ⟨3, [1, 2, 3], [4, 5, 6], [7, 8, 9], [10, 11, 12], 0, 0, 0, 0, 0⟩ 2 0 =
        some (md', none) ∧
      AddLabels ⟨3, [1, 2, 3], [4, 5, 6], [7, 8, 9], [10, 11, 12], 0, 0, 0, 0, 0⟩
        (P.map floatToInt) (A.map floatToInt) = some (md', none) :=
  C16_AddClassID_is_AddLabels_on_one_hot
    ⟨3, [1, 2, 3], [4, 5, 6], [7, 8, 9], [10, 11, 12], 0, 0, 0, 0, 0⟩ 2 0
    (by decide) (by decide) (by decide) (by decide) (by decide)

/-! ## Sums of shifted slices -/

theorem sum_of_shift (xs ys : List Int) (d : Nat → Int) (hlen : ys.length = xs.length)
    (h : ∀ j : Nat, counter ys j = counter xs j + d j) :
    ys.sum = xs.sum + ((List.range xs.length).map d).sum := by
  have e : (List.range xs.length).map (counter ys) =
      (List.range xs.length).map (fun j => counter xs j + d j) :=
    List.map_congr_left (fun j _ => h j)
  rw [← sum_map_counter_length ys, hlen, e, List.sum_map_add, sum_map_counter_length]

theorem sum_ind_eq (p : Int) (n : Nat) :
    ((List.range n).map (fun j : Nat => ind ((j : Int) = p))).sum =
      ind (0 ≤ p ∧ p < (n : Int)) := by
  induction n with
  | zero =>
    simp only [List.range_zero, List.map_nil, List.sum_nil, ind]
    split_ifs with h
    · omega
    · rfl
  | succ n ih =>
    rw [List.range_succ, List.map_append, List.sum_append, ih]
    simp only [List.map_cons, List.map_nil, List.sum_cons, List.sum_nil, add_zero, ind]
    split_ifs <;> omega

theorem sum_ind_lt (n k : Nat) (hk : n ≤ k) (c : Int) :
    ((List.range n).map (fun j : Nat => c * ind (j < k))).sum = c * n := by
  induction n with
  | zero => simp
  | succ n ih =>
    rw [List.range_succ, List.map_append, List.sum_append, ih (by omega)]
    have : n < k := by omega
    simp [ind, this]
    ring

theorem sum_map_zero (n : Nat) (f : Nat → Int) (h : ∀ j, f j = 0) :
    ((List.range n).map f).sum = 0 := by
  have : f = fun _ => 0 := funext h
  subst this
  simp

/-! ## Single calls on a well-formed accumulator -/

theorem AddClassID_error (md : Data) (p a : Int)
    (h : p < 0 ∨ p ≥ md.numClass ∨ a < 0 ∨ a ≥ md.numClass) :
    ∃ e, AddClassID md p a = some (md, some e) := by
  by_cases hp : p < 0 ∨ p ≥ md.numClass
  · exact ⟨{ classID := p, numClass := md.numClass }, by
      simp [AddClassID, ToOneHot_error _ _ hp]⟩
  · have ha : a < 0 ∨ a ≥ md.numClass := by omega
    have hp0 : 0 ≤ p := by omega
    have hp1 : p < md.numClass := by omega
    exact ⟨{ classID := a, numClass := md.numClass }, by
      simp [AddClassID, ToOneHot_ok _ _ hp0 hp1, ToOneHot_error _ _ ha]⟩

theorem AddLabels_ok (md : Data) (hwf : WellFormed md) (ps as : List Int)
    (hp : md.numClass ≤ (ps.length : Int)) (ha : md.numClass ≤ (as.length : Int)) :
    ∃ md', AddLabels md ps as = some (md', none) ∧
      (md.numClass ≤ 0 → md' = md) ∧ (0 < md.numClass → CachesZero md') ∧
      CountersShift md md'
        (fun j => ind (j < md.numClass.toNat ∧ (counter ps j = 1 ∧ counter as j = 1)))
        (fun j => ind (j < md.numClass.toNat ∧ (counter ps j = 1 ∧ counter as j = 0)))
        (fun j => ind (j < md.numClass.toNat ∧ (counter ps j = 0 ∧ counter as j = 1)))
        (fun j => ind (j < md.numClass.toNat ∧ (¬ (counter ps j = 1 ∧ counter as j = 1) ∧
          ¬ (counter ps j = 1 ∧ counter as j = 0) ∧
          ¬ (counter ps j = 0 ∧ counter as j = 1)))) := by
  have hlen := hwf.1
  obtain ⟨st, hst, hzero, hcache, hshift⟩ := addLoop_spec md hwf
    (fun j st => do
      let p ← sliceGet ps j
      let a ← sliceGet as j
      Add st j p a)
    (counter ps) (counter as)
    (by
      intro j st hj
      simp [sliceGet_counter ps j (by omega), sliceGet_counter as j (by omega)])
    md.numClass.toNat (by omega)
  refine ⟨st, ?_, fun h => hzero (by omega), fun h => hcache (by omega), hshift⟩
  simp only [AddLabels, forRange]
  rw [hst]
  rfl

theorem CountersShift.classCount {md1 md2 : Data} {d1 d2 d3 d4 : Nat → Int}
    (h : CountersShift md1 md2 d1 d2 d3 d4) (j : Nat) :
    classCount md2 j = classCount md1 j + (d1 j + d2 j + d3 j + d4 j) := by
  obtain ⟨-, -, -, -, -, hcnt⟩ := h
  obtain ⟨e1, e2, e3, e4⟩ := hcnt j
  simp only [Metrics.classCount, e1, e2, e3, e4]
  ring

/-! ## Sequences of `AddClassID` calls -/

theorem AddClassID_sums (md : Data) (hwf : WellFormed md) (p a : Int)
    (hp0 : 0 ≤ p) (hp1 : p < md.numClass) (ha0 : 0 ≤ a) (ha1 : a < md.numClass) :
    ∃ md', AddClassID md p a = some (md', none) ∧ md'.numClass = md.numClass ∧
      WellFormed md' ∧ CachesZero md' ∧
      md'.tp.sum = md.tp.sum + ind (p = a) ∧
      md'.fp.sum = md.fp.sum + ind (p ≠ a) ∧
      md'.fn.sum = md.fn.sum + ind (p ≠ a) := by
  obtain ⟨md', hrun, hcache, hshift⟩ := AddClassID_ok md hwf p a hp0 hp1 ha0 ha1
  have hwf' := hshift.wellFormed hwf
  obtain ⟨hn, l1, l2, l3, l4, hcnt⟩ := hshift
  obtain ⟨w1, w2, w3, w4⟩ := hwf
  have s1 := sum_of_shift md.tp md'.tp _ l1 (fun j => (hcnt j).1)
  have s2 := sum_of_shift md.fp md'.fp _ l2 (fun j => (hcnt j).2.1)
  have s3 := sum_of_shift md.fn md'.fn _ l3 (fun j => (hcnt j).2.2.1)
  have hp : ind (0 ≤ p ∧ p < (md.tp.length : Int)) = 1 := by
    have : 0 ≤ p ∧ p < (md.tp.length : Int) := by omega
    simp [ind, this]
  have hp' : ind (0 ≤ p ∧ p < (md.fp.length : Int)) = 1 := by
    have : 0 ≤ p ∧ p < (md.fp.length : Int) := by omega
    simp [ind, this]
  have ha : ind (0 ≤ a ∧ a < (md.fn.length : Int)) = 1 := by
    have : 0 ≤ a ∧ a < (md.fn.length : Int) := by omega
    simp [ind, this]
  refine ⟨md', hrun, hn, hwf', hcache, ?_, ?_, ?_⟩
  · rw [s1]
    congr 1
    by_cases hpa : p = a
    · have e : (fun j : Nat => ind ((j : Int) = p ∧ (j : Int) = a)) =
          (fun j : Nat => ind ((j : Int) = p)) := by
        funext j
        simp only [ind]
        split_ifs <;> omega
      rw [e, sum_ind_eq, hp]
      simp [ind, hpa]
    · rw [sum_map_zero _ _ (fun j => by
        have : ¬ ((j : Int) = p ∧ (j : Int) = a) := by omega
        simp [ind, this])]
      simp [ind, hpa]
  · rw [s2]
    congr 1
    by_cases hpa : p = a
    · rw [sum_map_zero _ _ (fun j => by
        have : ¬ ((j : Int) = p ∧ (j : Int) ≠ a) := by omega
        simp only [ind, this, if_false])]
      simp [ind, hpa]
    · have e : (fun j : Nat => ind ((j : Int) = p ∧ (j : Int) ≠ a)) =
          (fun j : Nat => ind ((j : Int) = p)) := by
        funext j
        simp only [ind]
        split_ifs <;> omega
      rw [e, sum_ind_eq, hp']
      simp [ind, hpa]
  · rw [s3]
    congr 1
    by_cases hpa : p = a
    · rw [sum_map_zero _ _ (fun j => by
        have : ¬ ((j : Int) ≠ p ∧ (j : Int) = a) := by omega
        simp only [ind, this, if_false])]
      simp [ind, hpa]
    · have e : (fun j : Nat => ind ((j : Int) ≠ p ∧ (j : Int) = a)) =
          (fun j : Nat => ind ((j : Int) = a)) := by
        funext j
        simp only [ind]
        split_ifs <;> omega
      rw [e, sum_ind_eq, ha]
      simp [ind, hpa]

theorem runClassIDs_spec (cs : List (Int × Int)) :
    ∀ md0 : Data, WellFormed md0 →
      (∀ c ∈ cs, 0 ≤ c.1 ∧ c.1 < md0.numClass ∧ 0 ≤ c.2 ∧ c.2 < md0.numClass) →
      ∃ md k, runCallsOk md0 (cs.map (fun c => Call.addClassID c.1 c.2)) = some md ∧
        WellFormed md ∧ (CachesZero md0 → CachesZero md) ∧
        md.fp.sum = md0.fp.sum + k ∧ md.fn.sum = md0.fn.sum + k ∧
        md.tp.sum + k = md0.tp.sum + (cs.length : Int) := by
  induction cs with
  | nil =>
    intro md0 hwf _
    exact ⟨md0, 0, rfl, hwf, id, by simp, by simp, by simp⟩
  | cons c cs ih =>
    intro md0 hwf hin
    obtain ⟨h1, h2, h3, h4⟩ := hin c (List.mem_cons_self _ _)
    obtain ⟨md1, hrun1, hn1, hwf1, hcache1, t1, t2, t3⟩ :=
      AddClassID_sums md0 hwf c.1 c.2 h1 h2 h3 h4
    obtain ⟨md, k, hrun, hwf2, -, u1, u2, u3⟩ := ih md1 hwf1
      (fun c' hc' => by rw [hn1]; exact hin c' (List.mem_cons_of_mem _ hc'))
    refine ⟨md, k + ind (c.1 ≠ c.2), ?_, hwf2, ?_, ?_, ?_, ?_⟩
    · simp only [runCallsOk, List.map_cons, List.foldlM_cons, Call.runOk, hrun1,
        Option.bind_eq_bind, Option.some_bind]
      exact hrun
    · intro _
      cases cs with
      | nil =>
        simp only [runCallsOk, List.map_nil, List.foldlM_nil, Option.pure_def,
          Option.some.injEq] at hrun
        exact hrun ▸ hcache1
      | cons c2 cs2 =>
        obtain ⟨md2, k2, hrun2, -, hc2, -⟩ := ih md1 hwf1
          (fun c' hc' => by rw [hn1]; exact hin c' (List.mem_cons_of_mem _ hc'))
        rw [hrun] at hrun2
        cases hrun2
        exact hc2 hcache1
    · rw [u1, t2]; ring
    · rw [u2, t3]; ring
    · have e : ind (c.1 = c.2) + ind (c.1 ≠ c.2) = 1 := by
        by_cases x : c.1 = c.2 <;> simp [ind, x]
      simp only [List.length_cons, Nat.cast_add, Nat.cast_one]
      linarith

/-- C17: for `numClass >= 1` and every finite sequence of in-range `AddClassID` calls and no
other mutation applied to `New(numClass)`, every call returns the nil error, and afterwards
`TotalFP() == TotalFN()` and `TotalTP() + TotalFP()` is the number of calls; so the
denominators `TotalTP() + TotalFP()` and `TotalTP() + TotalFN()` used by `MicroMetrics`
coincide. -/
theorem C17_single_label_totals (numClass : Int) (hn : 1 ≤ numClass) (cs : List (Int × Int))
    (hin : ∀ c ∈ cs, 0 ≤ c.1 ∧ c.1 < numClass ∧ 0 ≤ c.2 ∧ c.2 < numClass) :
    ∃ md0 md tp fp fn, New numClass = some md0 ∧
      runCallsOk md0 (cs.map (fun c => Call.addClassID c.1 c.2)) = some md ∧
      TotalTP md = some tp ∧ TotalFP md = some fp ∧ TotalFN md = some fn ∧
      fp = fn ∧ tp + fp = (cs.length : Int) ∧ tp + fp = tp + fn := by
  have hnew := New_ok numClass (by omega)
  obtain ⟨⟨hn0, hwf0, hcache0⟩, -⟩ := New_inv numClass _ hnew
  obtain ⟨md, k, hrun, hwf, hcache, u1, u2, u3⟩ := runClassIDs_spec cs _ hwf0
    (by simpa using hin)
  obtain ⟨c0, c1, c2, c3, c4⟩ := hcache hcache0
  simp only [sum_replicate_zero, zero_add] at u1 u2 u3
  refine ⟨_, md, _, _, _, hnew, hrun, TotalTP_eq md hwf (by omega),
    TotalFP_eq md hwf (by omega), TotalFN_eq md hwf (by omega), ?_, ?_, ?_⟩
  · rw [u1, u2]
  · rw [u1]; exact u3
  · rw [u1, u2]

/-- C17 at a concrete input: three `AddClassID` calls on a 3-class accumulator. -/
theorem C17_single_label_totals_witness :
    ∃ md0 md tp fp fn, New 3 = some md0 ∧
      runCallsOk md0 (([(0, 0), (1, 0), (2, 2)] : List (Int × Int)).map
        (fun c => Call.addClassID c.1 c.2)) = some md ∧
      TotalTP md = some tp ∧ TotalFP md = some fp ∧ TotalFN md = some fn ∧
      fp = fn ∧ tp + fp = (([(0, 0), (1, 0), (2, 2)] : List (Int × Int)).length : Int) ∧
      tp + fp = tp + fn :=
  C17_single_label_totals 3 (by decide) [(0, 0), (1, 0), (2, 2)] (by decide)

/-! ## Sequences of whole observations -/

theorem Call_runOk_observation (md : Data) (hwf : WellFormed md) (c : Call)
    (hc : c.IsObservation md.numClass) :
    ∃ md', Call.runOk md c = some md' ∧ md'.numClass = md.numClass ∧ WellFormed md' ∧
      (CachesZero md → CachesZero md') ∧
      ∀ j : Nat, classCount md' j = classCount md j + ind ((j : Int) < md.numClass) := by
  cases c with
  | add classID pred answer => exact absurd hc (by simp [Call.IsObservation])
  | addClassID p a =>
    obtain ⟨hp0, hp1, ha0, ha1⟩ := hc
    obtain ⟨md', hrun, hcache, hshift⟩ := AddClassID_ok md hwf p a hp0 hp1 ha0 ha1
    refine ⟨md', by simp [Call.runOk, hrun], hshift.1, hshift.wellFormed hwf,
      fun _ => hcache, fun j => ?_⟩
    rw [hshift.classCount j]
    congr 1
    simp only [ind]
    split_ifs <;> omega
  | addLabels ps as =>
    obtain ⟨hp, ha⟩ := hc
    obtain ⟨md', hrun, hzero, hcache, hshift⟩ :=
      AddLabels_ok md hwf ps as (by omega) (by omega)
    refine ⟨md', by simp [Call.runOk, hrun], hshift.1, hshift.wellFormed hwf, ?_,
      fun j => ?_⟩
    · intro h0
      by_cases hn : md.numClass ≤ 0
      · rw [hzero hn]; exact h0
      · exact hcache (by omega)
    · rw [hshift.classCount j]
      congr 1
      simp only [ind]
      split_ifs <;> omega

theorem runObservations_spec (cs : List Call) :
    ∀ md0 : Data, WellFormed md0 → (∀ c ∈ cs, c.IsObservation md0.numClass) →
      ∃ md, runCallsOk md0 cs = some md ∧ md.numClass = md0.numClass ∧ WellFormed md ∧
        (CachesZero md0 → CachesZero md) ∧
        ∀ j : Nat, classCount md j =
          classCount md0 j + (cs.length : Int) * ind ((j : Int) < md0.numClass) := by
  induction cs with
  | nil =>
    intro md0 hwf _
    exact ⟨md0, rfl, rfl, hwf, id, fun j => by simp⟩
  | cons c cs ih =>
    intro md0 hwf hin
    obtain ⟨md1, hrun1, hn1, hwf1, hcache1, hcnt1⟩ :=
      Call_runOk_observation md0 hwf c (hin c (List.mem_cons_self _ _))
    obtain ⟨md, hrun, hn, hwf2, hcache2, hcnt2⟩ := ih md1 hwf1
      (fun c' hc' => by rw [hn1]; exact hin c' (List.mem_cons_of_mem _ hc'))
    refine ⟨md, ?_, hn.trans hn1, hwf2, fun h => hcache2 (hcache1 h), fun j => ?_⟩
    · simp only [runCallsOk, List.foldlM_cons, hrun1, Option.bind_eq_bind, Option.some_bind]
      exact hrun
    · rw [hcnt2 j, hcnt1 j, hn1]
      simp only [List.length_cons, Nat.cast_add, Nat.cast_one]
      ring

/-- C18: for `numClass >= 1` and every finite sequence of `n` calls, each an in-range
`AddClassID` or an `AddLabels` with two label sequences of length `numClass`, applied to
`New(numClass)`, every call returns the nil error, every class `c` ends with
`tp[c] + fp[c] + fn[c] + tn[c] == n`, and `Total() == n * numClass`. -/
theorem C18_every_class_counts_every_call (numClass : Int) (hn : 1 ≤ numClass)
    (cs : List Call) (hin : ∀ c ∈ cs, c.IsObservation numClass) :
    ∃ md0 md, New numClass = some md0 ∧ runCallsOk md0 cs = some md ∧
      (∀ c : Nat, (c : Int) < numClass →
        counter md.tp c + counter md.fp c + counter md.fn c + counter md.tn c =
          (cs.length : Int)) ∧
      Total md = some ((cs.length : Int) * numClass) := by
  have hnew := New_ok numClass (by omega)
  obtain ⟨⟨hn0, hwf0, hcache0⟩, hzero⟩ := New_inv numClass _ hnew
  obtain ⟨md, hrun, hnum, hwf, hcache, hcnt⟩ := runObservations_spec cs _ hwf0
    (by simpa using hin)
  simp only at hnum
  have hcount : ∀ j : Nat, classCount md j = (cs.length : Int) * ind (j < numClass.toNat) := by
    intro j
    rw [hcnt j]
    obtain ⟨z1, z2, z3, z4⟩ := hzero j
    simp only [classCount, z1, z2, z3, z4, ind]
    split_ifs <;> omega
  refine ⟨_, md, hnew, hrun, fun c hc => ?_, ?_⟩
  · have h := hcount c
    have hlt : c < numClass.toNat := by omega
    simp only [classCount, ind, hlt, if_true, mul_one] at h
    exact h
  · obtain ⟨c0, -⟩ := hcache hcache0
    rw [Total_eq md hwf (by omega), hnum]
    have e : classCount md = fun j : Nat => (cs.length : Int) * ind (j < numClass.toNat) :=
      funext hcount
    rw [e, sum_ind_lt numClass.toNat numClass.toNat le_rfl]
    congr 2
    omega

/-- C18 at a concrete input: an `AddClassID` and an `AddLabels` call on a 2-class accumulator. -/
theorem C18_every_class_counts_every_call_witness :
    ∃ md0 md, New 2 = some md0 ∧
      runCallsOk md0 [.addClassID 1 0, .addLabels [1, 1] [0, 1]] = some md ∧
      (∀ c : Nat, (c : Int) < 2 →
        counter md.tp c + counter md.fp c + counter md.fn c + counter md.tn c =
          (([.addClassID 1 0, .addLabels [1, 1] [0, 1]] : List Call).length : Int)) ∧
      Total md =
        some ((([.addClassID 1 0, .addLabels [1, 1] [0, 1]] : List Call).length : Int) * 2) :=
  C18_every_class_counts_every_call 2 (by decide)
    [.addClassID 1 0, .addLabels [1, 1] [0, 1]] (by decide)

/-! ## Index safety -/

theorem ind_nonneg (b : Prop) [Decidable b] : 0 ≤ ind b := by
  unfold ind
  split <;> omega

theorem CountersShift.nonneg {md1 md2 : Data} {d1 d2 d3 d4 : Nat → Int}
    (h : CountersShift md1 md2 d1 d2 d3 d4)
    (hd : ∀ j, 0 ≤ d1 j ∧ 0 ≤ d2 j ∧ 0 ≤ d3 j ∧ 0 ≤ d4 j)
    (h1 : CountersNonneg md1) : CountersNonneg md2 := by
  intro j
  obtain ⟨-, -, -, -, -, hcnt⟩ := h
  obtain ⟨e1, e2, e3, e4⟩ := hcnt j
  obtain ⟨n1, n2, n3, n4⟩ := h1 j
  obtain ⟨p1, p2, p3, p4⟩ := hd j
  refine ⟨?_, ?_, ?_, ?_⟩ <;> omega

theorem nonneg_of_counter (xs : List Int) (h : ∀ j : Nat, 0 ≤ counter xs j) :
    ∀ x ∈ xs, 0 ≤ x := by
  intro x hx
  obtain ⟨j, hj, rfl⟩ := List.getElem_of_mem hx
  have := h j
  simpa [counter, List.getD_eq_getElem?_getD, List.getElem?_eq_getElem hj] using this

theorem Call_run_admissible (numClass : Int) (md : Data) (c : Call)
    (hn : md.numClass = numClass) (hwf : WellFormed md) (hnn : CountersNonneg md)
    (hc : c.Admissible numClass) :
    ∃ md', Call.run md c = some md' ∧ md'.numClass = numClass ∧ WellFormed md' ∧
      CountersNonneg md' := by
  subst hn
  cases c with
  | add classID pred answer =>
    obtain ⟨h0, h1⟩ := hc
    obtain ⟨md', hadd, -, hshift⟩ := Add_spec md classID pred answer hwf h0 h1
    exact ⟨md', hadd, hshift.1, hshift.wellFormed hwf,
      hshift.nonneg (fun j => ⟨ind_nonneg _, ind_nonneg _, ind_nonneg _, ind_nonneg _⟩) hnn⟩
  | addClassID p a =>
    by_cases hr : p < 0 ∨ p ≥ md.numClass ∨ a < 0 ∨ a ≥ md.numClass
    · obtain ⟨e, he⟩ := AddClassID_error md p a hr
      exact ⟨md, by simp [Call.run, he], rfl, hwf, hnn⟩
    · obtain ⟨md', hrun, -, hshift⟩ :=
        AddClassID_ok md hwf p a (by omega) (by omega) (by omega) (by omega)
      exact ⟨md', by simp [Call.run, hrun], hshift.1, hshift.wellFormed hwf,
        hshift.nonneg (fun j => ⟨ind_nonneg _, ind_nonneg _, ind_nonneg _, ind_nonneg _⟩) hnn⟩
  | addLabels ps as =>
    obtain ⟨hp, ha⟩ := hc
    obtain ⟨md', hrun, -, -, hshift⟩ := AddLabels_ok md hwf ps as hp ha
    exact ⟨md', by simp [Call.run, hrun], hshift.1, hshift.wellFormed hwf,
      hshift.nonneg (fun j => ⟨ind_nonneg _, ind_nonneg _, ind_nonneg _, ind_nonneg _⟩) hnn⟩

theorem runCalls_admissible (numClass : Int) (cs : List Call) :
    ∀ md0 : Data, md0.numClass = numClass → WellFormed md0 → CountersNonneg md0 →
      (∀ c ∈ cs, c.Admissible numClass) →
      ∃ md, runCalls md0 cs = some md ∧ md.numClass = numClass ∧ WellFormed md ∧
        CountersNonneg md := by
  induction cs with
  | nil =>
    intro md0 hn hwf hnn _
    exact ⟨md0, rfl, hn, hwf, hnn⟩
  | cons c cs ih =>
    intro md0 hn hwf hnn hin
    obtain ⟨md1, hrun1, hn1, hwf1, hnn1⟩ :=
      Call_run_admissible numClass md0 c hn hwf hnn (hin c (List.mem_cons_self _ _))
    obtain ⟨md, hrun, hn2, hwf2, hnn2⟩ := ih md1 hn1 hwf1 hnn1
      (fun c' hc' => hin c' (List.mem_cons_of_mem _ hc'))
    refine ⟨md, ?_, hn2, hwf2, hnn2⟩
    simp only [runCalls, List.foldlM_cons, hrun1, Option.bind_eq_bind, Option.some_bind]
    exact hrun

/-- C19: for `numClass >= 0`, every sequence of in-range `Add` calls, `AddClassID` calls with
arbitrary integer arguments and `AddLabels` calls with sequences of length at least `numClass`
runs from `New(numClass)` without a panic and leaves the four counter slices at length exactly
`numClass` with non-negative entries; and on the state reached, `AddClassID(p, a)` with
arbitrary integers `p`, `a` does not panic: it returns an error and the unchanged state, or
the nil error after all `numClass` calls of `Add`. -/
theorem C19_index_safety (numClass : Int) (hn : 0 ≤ numClass) (cs : List Call)
    (hin : ∀ c ∈ cs, c.Admissible numClass) (p a : Int) :
    ∃ md0 md, New numClass = some md0 ∧ runCalls md0 cs = some md ∧
      (md.tp.length : Int) = numClass ∧ (md.fp.length : Int) = numClass ∧
      (md.fn.length : Int) = numClass ∧ (md.tn.length : Int) = numClass ∧
      (∀ x ∈ md.tp, 0 ≤ x) ∧ (∀ x ∈ md.fp, 0 ≤ x) ∧
      (∀ x ∈ md.fn, 0 ≤ x) ∧ (∀ x ∈ md.tn, 0 ≤ x) ∧
      ((∃ e, AddClassID md p a = some (md, some e)) ∨
        (∃ md', AddClassID md p a = some (md', none))) := by
  have hnew := New_ok numClass hn
  obtain ⟨⟨hn0, hwf0, -⟩, hzero⟩ := New_inv numClass _ hnew
  have hnn0 : CountersNonneg _ := fun j => by
    obtain ⟨z1, z2, z3, z4⟩ := hzero j
    exact ⟨z1.ge, z2.ge, z3.ge, z4.ge⟩
  obtain ⟨md, hrun, hnum, hwf, hnn⟩ := runCalls_admissible numClass cs _ hn0 hwf0 hnn0 hin
  obtain ⟨w1, w2, w3, w4⟩ := hwf
  refine ⟨_, md, hnew, hrun, by omega, by omega, by omega, by omega,
    nonneg_of_counter _ (fun j => (hnn j).1), nonneg_of_counter _ (fun j => (hnn j).2.1),
    nonneg_of_counter _ (fun j => (hnn j).2.2.1), nonneg_of_counter _ (fun j => (hnn j).2.2.2),
    ?_⟩
  by_cases hr : p < 0 ∨ p ≥ md.numClass ∨ a < 0 ∨ a ≥ md.numClass
  · exact Or.inl (AddClassID_error md p a hr)
  · obtain ⟨md', hrun', -, -⟩ :=
      AddClassID_ok md ⟨w1, w2, w3, w4⟩ p a (by omega) (by omega) (by omega) (by omega)
    exact Or.inr ⟨md', hrun'⟩

/-- C19 at a concrete input: four calls on a 2-class accumulator (one `AddClassID` out of
range, one `AddLabels` with sequences longer than `numClass`), then `AddClassID(5, -1)`. -/
theorem C19_index_safety_witness :
    ∃ md0 md, New 2 = some md0 ∧
      runCalls md0 [.add 1 0 1, .addClassID 7 0, .addClassID 0 1,
        .addLabels [1, 0, 1] [1, 1, 0, 0]] = some md ∧
      (md.tp.length : Int) = 2 ∧ (md.fp.length : Int) = 2 ∧
      (md.fn.length : Int) = 2 ∧ (md.tn.length : Int) = 2 ∧
      (∀ x ∈ md.tp, 0 ≤ x) ∧ (∀ x ∈ md.fp, 0 ≤ x) ∧
      (∀ x ∈ md.fn, 0 ≤ x) ∧ (∀ x ∈ md.tn, 0 ≤ x) ∧
      ((∃ e, AddClassID md 5 (-1) = some (md, some e)) ∨
        (∃ md', AddClassID md 5 (-1) = some (md', none))) :=
  C19_index_safety 2 (by decide)
    [.add 1 0 1, .addClassID 7 0, .addClassID 0 1, .addLabels [1, 0, 1] [1, 1, 0, 0]]
    (by decide) 5 (-1)

/-! ## `Add` calls commute -/

theorem list_eq_of_counter (xs ys : List Int) (hlen : xs.length = ys.length)
    (h : ∀ j : Nat, counter xs j = counter ys j) : xs = ys := by
  apply List.ext_getElem hlen
  intro n h1 h2
  have := h n
  simpa [counter, List.getD_eq_getElem?_getD, List.getElem?_eq_getElem h1,
    List.getElem?_eq_getElem h2] using this

theorem Data_eq_of_counters (x y : Data) (hn : x.numClass = y.numClass)
    (l1 : x.tp.length = y.tp.length) (l2 : x.fp.length = y.fp.length)
    (l3 : x.fn.length = y.fn.length) (l4 : x.tn.length = y.tn.length)
    (hcnt : ∀ j : Nat, counter x.tp j = counter y.tp j ∧ counter x.fp j = counter y.fp j ∧
      counter x.fn j = counter y.fn j ∧ counter x.tn j = counter y.tn j)
    (hx : CachesZero x) (hy : CachesZero y) : x = y := by
  have e1 := list_eq_of_counter x.tp y.tp l1 (fun j => (hcnt j).1)
  have e2 := list_eq_of_counter x.fp y.fp l2 (fun j => (hcnt j).2.1)
  have e3 := list_eq_of_counter x.fn y.fn l3 (fun j => (hcnt j).2.2.1)
  have e4 := list_eq_of_counter x.tn y.tn l4 (fun j => (hcnt j).2.2.2)
  obtain ⟨x0, x1, x2, x3, x4⟩ := hx
  obtain ⟨y0, y1, y2, y3, y4⟩ := hy
  cases x
  cases y
  simp_all

theorem Add_comm_pair (md : Data) (hwf : WellFormed md) (c1 p1 a1 c2 p2 a2 : Int)
    (h1 : 0 ≤ c1 ∧ c1 < md.numClass) (h2 : 0 ≤ c2 ∧ c2 < md.numClass) :
    ∃ st, (Add md c1 p1 a1).bind (fun m => Add m c2 p2 a2) = some st ∧
      (Add md c2 p2 a2).bind (fun m => Add m c1 p1 a1) = some st ∧
      st.numClass = md.numClass ∧ WellFormed st := by
  obtain ⟨m1, r1, -, s1⟩ := Add_spec md c1 p1 a1 hwf h1.1 h1.2
  obtain ⟨m12, r12, z12, s12⟩ := Add_spec m1 c2 p2 a2 (s1.wellFormed hwf)
    h2.1 (by rw [s1.1]; exact h2.2)
  obtain ⟨m2, r2, -, s2⟩ := Add_spec md c2 p2 a2 hwf h2.1 h2.2
  obtain ⟨m21, r21, z21, s21⟩ := Add_spec m2 c1 p1 a1 (s2.wellFormed hwf)
    h1.1 (by rw [s2.1]; exact h1.2)
  have heq : m21 = m12 := by
    obtain ⟨n1, a1', a2', a3', a4', k1⟩ := s1
    obtain ⟨n12, b1, b2, b3, b4, k12⟩ := s12
    obtain ⟨n2, c1', c2', c3', c4', k2⟩ := s2
    obtain ⟨n21, d1, d2, d3, d4, k21⟩ := s21
    refine Data_eq_of_counters m21 m12 (by omega) (by omega) (by omega) (by omega) (by omega)
      (fun j => ?_) z21 z12
    obtain ⟨x1, x2, x3, x4⟩ := k1 j
    obtain ⟨y1, y2, y3, y4⟩ := k12 j
    obtain ⟨u1, u2, u3, u4⟩ := k2 j
    obtain ⟨v1, v2, v3, v4⟩ := k21 j
    refine ⟨?_, ?_, ?_, ?_⟩
    · rw [v1, u1, y1, x1]; ring
    · rw [v2, u2, y2, x2]; ring
    · rw [v3, u3, y3, x3]; ring
    · rw [v4, u4, y4, x4]; ring
  refine ⟨m12, by simp [r1, r12], by simp [r2, r21, heq], s12.1.trans s1.1,
    s12.wellFormed (s1.wellFormed hwf)⟩

theorem runAdds_cons (md : Data) (c : Int × Int × Int) (cs : List (Int × Int × Int)) :
    runAdds md (c :: cs) = (Add md c.1 c.2.1 c.2.2).bind (fun m => runAdds m cs) := by
  simp [runAdds, List.foldlM_cons]

theorem runAdds_perm {cs cs' : List (Int × Int × Int)} (hperm : cs.Perm cs') :
    ∀ md : Data, WellFormed md → (∀ c ∈ cs, 0 ≤ c.1 ∧ c.1 < md.numClass) →
      runAdds md cs = runAdds md cs' := by
  induction hperm with
  | nil => intro md _ _; rfl
  | cons x _ ih =>
    intro md hwf hin
    obtain ⟨m1, r1, -, s1⟩ := Add_spec md x.1 x.2.1 x.2.2 hwf
      (hin x (List.mem_cons_self _ _)).1 (hin x (List.mem_cons_self _ _)).2
    rw [runAdds_cons, runAdds_cons, r1]
    exact ih m1 (s1.wellFormed hwf)
      (fun c hc => by rw [s1.1]; exact hin c (List.mem_cons_of_mem _ hc))
  | swap x y l =>
    intro md hwf hin
    have hx := hin x (by simp)
    have hy := hin y (by simp)
    obtain ⟨st, e1, e2, -, -⟩ :=
      Add_comm_pair md hwf y.1 y.2.1 y.2.2 x.1 x.2.1 x.2.2 hy hx
    simp only [runAdds_cons]
    rw [← Option.bind_assoc, ← Option.bind_assoc, e1, e2]
  | trans h12 _ ih1 ih2 =>
    intro md hwf hin
    rw [ih1 md hwf hin]
    exact ih2 md hwf (fun c hc => hin c (h12.mem_iff.mpr hc))

/-- C20: on a well-formed accumulator and for in-range `c1`, `c2` and arbitrary integers
`p1`, `a1`, `p2`, `a2`, `Add(c1, p1, a1)` followed by `Add(c2, p2, a2)` and the same two calls
in the opposite order both return and leave exactly the same state; and two sequences of
in-range `Add` calls that are permutations of each other both run to the same final state. -/
theorem C20_Add_calls_commute (md : Data) (hwf : WellFormed md)
    (c1 p1 a1 c2 p2 a2 : Int)
    (h1 : 0 ≤ c1 ∧ c1 < md.numClass) (h2 : 0 ≤ c2 ∧ c2 < md.numClass)
    (cs cs' : List (Int × Int × Int)) (hperm : cs.Perm cs')
    (hin : ∀ c ∈ cs, 0 ≤ c.1 ∧ c.1 < md.numClass) :
    (∃ st, (Add md c1 p1 a1).bind (fun m => Add m c2 p2 a2) = some st ∧
      (Add md c2 p2 a2).bind (fun m => Add m c1 p1 a1) = some st) ∧
    (∃ st, runAdds md cs = some st ∧ runAdds md cs' = some st) := by
  obtain ⟨st, e1, e2, -, -⟩ := Add_comm_pair md hwf c1 p1 a1 c2 p2 a2 h1 h2
  obtain ⟨st', hrun, -⟩ := runAdds_spec cs md hwf hin
  exact ⟨⟨st, e1, e2⟩, ⟨st', hrun, (runAdds_perm hperm md hwf hin) ▸ hrun⟩⟩

/-- C20 at a concrete input: two calls on the same class, and a sequence of three calls with
its reversal, on a 2-class accumulator. -/
theorem C20_Add_calls_commute_witness :
    (∃ st, (Add ⟨2, [1, 2], [3, 4], [5, 6], [7, 8], 0, 0, 0, 0, 0⟩ 1 1 1).bind
        (fun m => Add m 1 4 0) = some st ∧
      (Add ⟨2, [1, 2], [3, 4], [5, 6], [7, 8], 0, 0, 0, 0, 0⟩ 1 4 0).bind
        (fun m => Add m 1 1 1) = some st) ∧
    (∃ st, runAdds ⟨2, [1, 2], [3, 4], [5, 6], [7, 8], 0, 0, 0, 0, 0⟩
        [(0, 1, 1), (1, 0, 1), (1, 1, 0)] = some st ∧
      runAdds ⟨2, [1, 2], [3, 4], [5, 6], [7, 8], 0, 0, 0, 0, 0⟩
        [(1, 1, 0), (1, 0, 1), (0, 1, 1)] = some st) :=
  C20_Add_calls_commute ⟨2, [1, 2], [3, 4], [5, 6], [7, 8], 0, 0, 0, 0, 0⟩ (by decide)
    1 1 1 1 4 0 (by decide) (by decide)
    [(0, 1, 1), (1, 0, 1), (1, 1, 0)] [(1, 1, 0), (1, 0, 1), (0, 1, 1)]
    (by decide) (by decide)

/-! ## Rounding to `float32` -/

theorem roundHalfEven_intCast (m : Int) : roundHalfEven (m : ℚ) = m := by
  simp [roundHalfEven]

theorem ulp32_pos (a : ℚ) : 0 < ulp32 a := by
  unfold ulp32
  positivity

theorem floor_le_roundHalfEven (x : ℚ) : ⌊x⌋ ≤ roundHalfEven x := by
  unfold roundHalfEven
  split_ifs <;> omega

theorem roundHalfEven_le_floor_succ (x : ℚ) : roundHalfEven x ≤ ⌊x⌋ + 1 := by
  unfold roundHalfEven
  split_ifs <;> omega

/-- Rounding a value that already lies on the float32 grid returns it. -/
theorem round32_of_grid (q : ℚ) (m : Int) (hm : |q| / ulp32 |q| = (m : ℚ))
    (hlt : |q| < (2 : ℚ) ^ (128 : Nat)) : round32 q = .fin q := by
  have hu := ulp32_pos |q|
  have hr : ((roundHalfEven (|q| / ulp32 |q|) : Int) : ℚ) * ulp32 |q| = |q| := by
    rw [hm, roundHalfEven_intCast, ← hm]
    field_simp
  unfold round32
  rw [hr, if_neg (not_le.mpr hlt)]
  congr 1
  split_ifs with h
  · rw [abs_of_neg h, neg_neg]
  · rw [abs_of_nonneg (not_lt.mp h)]

theorem log2_eq (r : ℚ) (e : Int) (h1 : (2 : ℚ) ^ e ≤ r) (h2 : r < (2 : ℚ) ^ (e + 1)) :
    Int.log 2 r = e := by
  have hr : 0 < r := lt_of_lt_of_le (by positivity) h1
  have a := (Int.zpow_le_iff_le_log (b := 2) (by norm_num) hr).mp (by exact_mod_cast h1)
  have b := (Int.lt_zpow_iff_log_lt (b := 2) (by norm_num) hr).mp (by exact_mod_cast h2)
  omega

theorem two_zpow_add (a b : Int) : (2 : ℚ) ^ (a + b) = 2 ^ a * 2 ^ b :=
  zpow_add₀ (by norm_num) a b

theorem grid_quotient (m e : Int) (hm0 : 0 < m) (hm : m ≤ 2 ^ 24) (he : -126 ≤ e)
    (hsub : m < 2 ^ 23 → e = -126) :
    ∃ k : Int, (m : ℚ) * 2 ^ (e - 23) / ulp32 ((m : ℚ) * 2 ^ (e - 23)) = (k : ℚ) := by
  have hu : (0 : ℚ) < 2 ^ (e - 23) := by positivity
  have hmq : (0 : ℚ) < (m : ℚ) := by exact_mod_cast hm0
  have e1 : (2 : ℚ) ^ e = 2 ^ (23 : Int) * 2 ^ (e - 23) := by
    rw [← two_zpow_add]; congr 1; ring
  have e2 : (2 : ℚ) ^ (e + 1) = 2 ^ (24 : Int) * 2 ^ (e - 23) := by
    rw [← two_zpow_add]; congr 1; ring
  have c23 : ((2 : ℚ) ^ (23 : Int)) = ((2 ^ 23 : Int) : ℚ) := by norm_num
  have c24 : ((2 : ℚ) ^ (24 : Int)) = ((2 ^ 24 : Int) : ℚ) := by norm_num
  by_cases h23 : m < 2 ^ 23
  · have he' := hsub h23
    subst he'
    have hlt : (m : ℚ) * 2 ^ ((-126 : Int) - 23) < (2 : ℚ) ^ (-126 : Int) := by
      rw [e1]
      apply mul_lt_mul_of_pos_right _ hu
      rw [c23]; exact_mod_cast h23
    have hlog : Int.log 2 ((m : ℚ) * 2 ^ ((-126 : Int) - 23)) < -126 :=
      (Int.lt_zpow_iff_log_lt (b := 2) (by norm_num) (by positivity)).mp (by exact_mod_cast hlt)
    refine ⟨m, ?_⟩
    rw [ulp32, max_eq_right (le_of_lt hlog)]
    field_simp
  · by_cases h24 : m = 2 ^ 24
    · refine ⟨2 ^ 23, ?_⟩
      have hr : (m : ℚ) * 2 ^ (e - 23) = (2 : ℚ) ^ (e + 1) := by
        rw [e2, c24, h24]
      have hlog : Int.log 2 ((m : ℚ) * 2 ^ (e - 23)) = e + 1 := by
        rw [hr]
        exact_mod_cast Int.log_zpow (R := ℚ) (b := 2) (by norm_num) (e + 1)
      rw [ulp32, hlog, max_eq_left (by omega), hr]
      have e3 : (2 : ℚ) ^ (e + 1) = 2 ^ (23 : Int) * 2 ^ (e + 1 - 23) := by
        rw [← two_zpow_add]; congr 1; ring
      rw [e3, c23]
      have : (0 : ℚ) < 2 ^ (e + 1 - 23) := by positivity
      field_simp
    · have hlo : (2 : ℚ) ^ e ≤ (m : ℚ) * 2 ^ (e - 23) := by
        rw [e1]
        apply mul_le_mul_of_nonneg_right _ hu.le
        rw [c23]; exact_mod_cast (not_lt.mp h23)
      have hhi : (m : ℚ) * 2 ^ (e - 23) < (2 : ℚ) ^ (e + 1) := by
        rw [e2]
        apply mul_lt_mul_of_pos_right _ hu
        rw [c24]
        have : m < 2 ^ 24 := lt_of_le_of_ne hm h24
        exact_mod_cast this
      refine ⟨m, ?_⟩
      rw [ulp32, log2_eq _ e hlo hhi, max_eq_left he]
      field_simp

theorem roundHalfEven_zero : roundHalfEven 0 = 0 := by
  have := roundHalfEven_intCast 0
  simpa using this

theorem round32_zero : round32 0 = .fin 0 :=
  round32_of_grid 0 0 (by simp) (by simp)

/-- The finite results of `round32` are fixed points of `round32`. -/
theorem round32_idem (q q' : ℚ) (h : round32 q = .fin q') : round32 q' = .fin q' := by
  have hu := ulp32_pos |q|
  have ha : 0 ≤ |q| := abs_nonneg q
  have hx : 0 ≤ |q| / ulp32 |q| := div_nonneg ha hu.le
  have hfl : 0 ≤ ⌊|q| / ulp32 |q|⌋ := Int.floor_nonneg.mpr hx
  have hm0 : 0 ≤ roundHalfEven (|q| / ulp32 |q|) := le_trans hfl (floor_le_roundHalfEven _)
  unfold round32 at h
  split_ifs at h with hov
  all_goals simp only [F32.fin.injEq] at h
  all_goals
    have habs : |q'| = (roundHalfEven (|q| / ulp32 |q|) : ℚ) * ulp32 |q| := by
      rw [← h]
      first
      | rw [abs_neg, abs_of_nonneg (mul_nonneg (by exact_mod_cast hm0) hu.le)]
      | rw [abs_of_nonneg (mul_nonneg (by exact_mod_cast hm0) hu.le)]
  all_goals
    have hlt : |q'| < (2 : ℚ) ^ (128 : Nat) := by rw [habs]; exact not_le.mp hov
  all_goals
    rcases eq_or_lt_of_le hm0 with hz | hpos
    · have : |q'| = 0 := by rw [habs, ← hz]; simp
      have hq0 : q' = 0 := abs_eq_zero.mp this
      rw [hq0]; exact round32_zero
    · have hle : roundHalfEven (|q| / ulp32 |q|) ≤ 2 ^ 24 := by
        have h1 : |q| < (2 : ℚ) ^ (Int.log 2 |q| + 1) :=
          Int.lt_zpow_succ_log_self (b := 2) (by norm_num) |q|
        have h2 : (2 : ℚ) ^ (Int.log 2 |q| + 1) ≤
            2 ^ (24 : Int) * 2 ^ (max (Int.log 2 |q|) (-126) - 23) := by
          rw [← two_zpow_add]
          apply zpow_le_zpow_right₀ (by norm_num)
          have := le_max_left (Int.log 2 |q|) (-126)
          omega
        have h3 : |q| / ulp32 |q| < 2 ^ (24 : Int) := by
          rw [div_lt_iff₀ hu]
          exact lt_of_lt_of_le h1 h2
        have h4 : ⌊|q| / ulp32 |q|⌋ < 2 ^ 24 := by
          rw [Int.floor_lt]
          have c24 : ((2 : ℚ) ^ (24 : Int)) = ((2 ^ 24 : Int) : ℚ) := by norm_num
          rw [← c24]; exact h3
        have := roundHalfEven_le_floor_succ (|q| / ulp32 |q|)
        omega
      have hsub : roundHalfEven (|q| / ulp32 |q|) < 2 ^ 23 →
          max (Int.log 2 |q|) (-126) = -126 := by
        intro hlt23
        by_contra hne
        have hL : -126 < Int.log 2 |q| := by
          rcases le_total (Int.log 2 |q|) (-126) with hle' | hge
          · exact absurd (max_eq_right hle') hne
          · rcases eq_or_lt_of_le hge with heq | hlt'
            · exact absurd (by rw [← heq]; simp) hne
            · exact hlt'
        have hapos : 0 < |q| := by
          rcases eq_or_lt_of_le ha with hz | hp
          · exfalso
            rw [← hz] at hpos
            simp [roundHalfEven_zero] at hpos
          · exact hp
        have h1 : (2 : ℚ) ^ (Int.log 2 |q|) ≤ |q| :=
          Int.zpow_log_le_self (b := 2) (by norm_num) hapos
        have h2 : (2 : ℚ) ^ (23 : Int) * ulp32 |q| ≤ |q| := by
          rw [ulp32, max_eq_left hL.le, ← two_zpow_add]
          have : (23 : Int) + (Int.log 2 |q| - 23) = Int.log 2 |q| := by ring
          rw [this]; exact h1
        have h3 : (2 : ℚ) ^ (23 : Int) ≤ |q| / ulp32 |q| := by
          rw [le_div_iff₀ hu]; exact h2
        have h4 : (2 ^ 23 : Int) ≤ ⌊|q| / ulp32 |q|⌋ := by
          rw [Int.le_floor]
          have c23 : ((2 : ℚ) ^ (23 : Int)) = ((2 ^ 23 : Int) : ℚ) := by norm_num
          rw [← c23]; exact h3
        have := floor_le_roundHalfEven (|q| / ulp32 |q|)
        omega
      obtain ⟨k, hk⟩ := grid_quotient (roundHalfEven (|q| / ulp32 |q|))
        (max (Int.log 2 |q|) (-126)) hpos hle (le_max_right _ _) hsub
      refine round32_of_grid q' k ?_ hlt
      rw [habs]
      exact hk

theorem round32_one : round32 1 = .fin 1 := by
  refine round32_of_grid 1 (2 ^ 23) ?_ (by norm_num)
  have e : ulp32 |(1 : ℚ)| = (2 : ℚ) ^ (-23 : Int) := by
    rw [abs_one, ulp32, Int.log_one_right]
    norm_num
  rw [e, abs_one]
  norm_num

theorem round32_two : round32 2 = .fin 2 := by
  refine round32_of_grid 2 (2 ^ 23) ?_ (by norm_num)
  have hlog : Int.log 2 (2 : ℚ) = 1 := log2_eq 2 1 (by norm_num) (by norm_num)
  have e : ulp32 |(2 : ℚ)| = (2 : ℚ) ^ (-22 : Int) := by
    rw [abs_two, ulp32, hlog]
    norm_num
  rw [e, abs_two]
  norm_num

/-- Converting an `int` in `[1, 2^127)` gives a finite positive `float32`. -/
theorem round32_pos (q : ℚ) (h1 : 1 ≤ q) (h2 : q < (2 : ℚ) ^ (127 : Nat)) :
    ∃ r : ℚ, round32 q = .fin r ∧ 0 < r := by
  have hq : 0 < q := lt_of_lt_of_le one_pos h1
  have habs : |q| = q := abs_of_pos hq
  have hu := ulp32_pos q
  have hL : 0 ≤ Int.log 2 q :=
    (Int.zpow_le_iff_le_log (b := 2) (by norm_num) hq).mp (by simpa using h1)
  have hue : ulp32 q = (2 : ℚ) ^ (Int.log 2 q - 23) := by
    rw [ulp32, max_eq_left (by omega)]
  have hlow : (2 : ℚ) ^ (Int.log 2 q) ≤ q := Int.zpow_log_le_self (b := 2) (by norm_num) hq
  have h23 : (2 : ℚ) ^ (23 : Int) * ulp32 q ≤ q := by
    rw [hue, ← two_zpow_add]
    have : (23 : Int) + (Int.log 2 q - 23) = Int.log 2 q := by ring
    rw [this]; exact hlow
  have hx : (2 : ℚ) ^ (23 : Int) ≤ q / ulp32 q := by
    rw [le_div_iff₀ hu]; exact h23
  have hfl : (2 ^ 23 : Int) ≤ ⌊q / ulp32 q⌋ := by
    rw [Int.le_floor]
    have c23 : ((2 : ℚ) ^ (23 : Int)) = ((2 ^ 23 : Int) : ℚ) := by norm_num
    rw [← c23]; exact hx
  have hm : (2 ^ 23 : Int) ≤ roundHalfEven (q / ulp32 q) :=
    le_trans hfl (floor_le_roundHalfEven _)
  have hmq : (0 : ℚ) < (roundHalfEven (q / ulp32 q) : ℚ) := by
    have : (0 : Int) < roundHalfEven (q / ulp32 q) := by omega
    exact_mod_cast this
  have hule : ulp32 q ≤ q := by
    refine le_trans ?_ h23
    have : (1 : ℚ) ≤ 2 ^ (23 : Int) := by norm_num
    calc ulp32 q = 1 * ulp32 q := by ring
      _ ≤ 2 ^ (23 : Int) * ulp32 q := mul_le_mul_of_nonneg_right this hu.le
  have hup : (roundHalfEven (q / ulp32 q) : ℚ) * ulp32 q ≤ q + ulp32 q := by
    have h3 : (roundHalfEven (q / ulp32 q) : ℚ) ≤ q / ulp32 q + 1 := by
      have h4 := roundHalfEven_le_floor_succ (q / ulp32 q)
      have h5 : ((⌊q / ulp32 q⌋ : Int) : ℚ) ≤ q / ulp32 q := Int.floor_le _
      have h6 : (roundHalfEven (q / ulp32 q) : ℚ) ≤ ((⌊q / ulp32 q⌋ + 1 : Int) : ℚ) := by
        exact_mod_cast h4
      push_cast at h6
      linarith
    calc (roundHalfEven (q / ulp32 q) : ℚ) * ulp32 q
        ≤ (q / ulp32 q + 1) * ulp32 q := mul_le_mul_of_nonneg_right h3 hu.le
      _ = q + ulp32 q := by field_simp
  have hsmall : (roundHalfEven (q / ulp32 q) : ℚ) * ulp32 q < (2 : ℚ) ^ (128 : Nat) := by
    have : q + ulp32 q < (2 : ℚ) ^ (128 : Nat) := by
      have e : (2 : ℚ) ^ (128 : Nat) = 2 ^ (127 : Nat) + 2 ^ (127 : Nat) := by norm_num
      rw [e]
      linarith
    linarith
  refine ⟨(roundHalfEven (q / ulp32 q) : ℚ) * ulp32 q, ?_, mul_pos hmq hu⟩
  unfold round32
  rw [habs, if_neg (not_le.mpr hsmall), if_neg (not_lt.mpr hq.le)]

theorem round32_onGrid (q : ℚ) : (round32 q).OnGrid := by
  cases h : round32 q with
  | nan => trivial
  | inf s => trivial
  | fin q' => exact round32_idem q q' h

theorem F32.div_onGrid (x y : F32) : (F32.div x y).OnGrid := by
  cases x <;> cases y <;> simp only [F32.div] <;> try trivial
  · exact round32_zero
  · split_ifs
    · trivial
    · trivial
    · exact round32_onGrid _

theorem F32.add_onGrid (x y : F32) : (F32.add x y).OnGrid := by
  cases x <;> cases y <;> simp only [F32.add] <;> try trivial
  · split_ifs <;> trivial
  · exact round32_onGrid _

theorem F32.zero_add (x : F32) (h : x.OnGrid) : F32.add (.fin 0) x = x := by
  cases x with
  | nan => rfl
  | inf s => rfl
  | fin q =>
    simp only [F32.add, Rat.zero_add]
    exact h

/-! ## `Precision` and `Recall` after `Add(classID, 1, 1)` calls only -/

theorem wrapInt_of_lt (x : Int) (h0 : -2 ^ 63 ≤ x) (h1 : x < 2 ^ 63) : wrapInt x = x := by
  unfold wrapInt
  omega

theorem F32.div_ofInt_self (n : Int) (h1 : 1 ≤ n) (h2 : n < 2 ^ 63) :
    F32.div (F32.ofInt n) (F32.ofInt n) = .fin 1 := by
  have hq1 : (1 : ℚ) ≤ (n : ℚ) := by exact_mod_cast h1
  have hq2 : (n : ℚ) < (2 : ℚ) ^ (127 : Nat) := by
    have h3 : (n : ℚ) < ((2 ^ 63 : Int) : ℚ) := by exact_mod_cast h2
    have h4 : ((2 ^ 63 : Int) : ℚ) ≤ (2 : ℚ) ^ (127 : Nat) := by norm_num
    exact lt_of_lt_of_le h3 h4
  obtain ⟨r, hr, hpos⟩ := round32_pos (n : ℚ) hq1 hq2
  rw [F32.ofInt, hr]
  simp only [F32.div, hpos.ne', if_false, div_self hpos.ne']
  exact round32_one

theorem F32.div_ofInt_zero : F32.div (F32.ofInt 0) (F32.ofInt 0) = .nan := by
  have e : F32.ofInt 0 = .fin 0 := by
    rw [F32.ofInt, Int.cast_zero]
    exact round32_zero
  rw [e]
  simp [F32.div]

theorem sliceGet_counter_int (xs : List Int) (c : Int) (h0 : 0 ≤ c) (h1 : c < xs.length) :
    sliceGet xs c = some (counter xs c.toNat) := by
  have h := sliceGet_counter xs c.toNat (by omega)
  rwa [Int.toNat_of_nonneg h0] at h

theorem runAdds_replicate (c : Int) (n : Nat) :
    ∀ md0 : Data, WellFormed md0 → 0 ≤ c → c < md0.numClass →
      ∃ md, runAdds md0 (List.replicate n (c, 1, 1)) = some md ∧ WellFormed md ∧
        md.numClass = md0.numClass ∧
        ∀ j : Nat, counter md.tp j = counter md0.tp j + (n : Int) * ind ((j : Int) = c) ∧
          counter md.fp j = counter md0.fp j ∧ counter md.fn j = counter md0.fn j := by
  induction n with
  | zero =>
    intro md0 hwf _ _
    exact ⟨md0, rfl, hwf, rfl, fun j => by simp⟩
  | succ n ih =>
    intro md0 hwf h0 h1
    obtain ⟨md1, hadd, -, hshift⟩ := Add_spec md0 c 1 1 hwf h0 h1
    obtain ⟨md, hrun, hwf2, hn2, hcnt2⟩ := ih md1 (hshift.wellFormed hwf) h0
      (by rw [hshift.1]; exact h1)
    refine ⟨md, ?_, hwf2, hn2.trans hshift.1, fun j => ?_⟩
    · rw [List.replicate_succ, runAdds_cons, hadd]
      exact hrun
    · obtain ⟨-, -, -, -, -, hcnt1⟩ := hshift
      obtain ⟨x1, x2, x3, -⟩ := hcnt1 j
      obtain ⟨y1, y2, y3⟩ := hcnt2 j
      refine ⟨?_, ?_, ?_⟩
      · rw [y1, x1]
        simp only [ind, Nat.cast_add, Nat.cast_one]
        split_ifs <;> first | omega | (exfalso; simp_all)
      · rw [y2, x2]
        simp [ind]
      · rw [y3, x3]
        simp [ind]

/-- C11, as amended: for an in-range `classID`, after at least one and fewer than `2^63`
calls `Add(classID, 1, 1)` and no other call on `New(numClass)`, `Precision(classID)` and
`Recall(classID)` both return `1.0`. -/
theorem C11_precision_recall_after_true_positives (numClass classID : Int) (n : Nat)
    (h0 : 0 ≤ classID) (h1 : classID < numClass) (hn1 : 1 ≤ n) (hn2 : (n : Int) < 2 ^ 63) :
    ∃ md0 md x y, New numClass = some md0 ∧
      runAdds md0 (List.replicate n (classID, 1, 1)) = some md ∧
      Precision md classID = some x ∧ Recall md classID = some y ∧
      x = .fin 1 ∧ y = .fin 1 ∧
      F32.equal x (.fin 1) = true ∧ F32.equal y (.fin 1) = true := by
  have hnew := New_ok numClass (by omega)
  obtain ⟨⟨hn0, hwf0, -⟩, hzero⟩ := New_inv numClass _ hnew
  obtain ⟨md, hrun, hwf, hnum, hcnt⟩ := runAdds_replicate classID n _ hwf0 h0 h1
  obtain ⟨w1, w2, w3, w4⟩ := hwf
  simp only at hnum
  obtain ⟨c1, c2, c3⟩ := hcnt classID.toNat
  obtain ⟨z1, z2, z3, -⟩ := hzero classID.toNat
  have hself : ((classID.toNat : Nat) : Int) = classID := Int.toNat_of_nonneg h0
  rw [z1, hself] at c1
  rw [z2] at c2
  rw [z3] at c3
  simp only [ind, if_true, zero_add, mul_one] at c1
  have gtp := sliceGet_counter_int md.tp classID h0 (by omega)
  have gfp := sliceGet_counter_int md.fp classID h0 (by omega)
  have gfn := sliceGet_counter_int md.fn classID h0 (by omega)
  rw [c1] at gtp
  rw [c2] at gfp
  rw [c3] at gfn
  have hdiv := F32.div_ofInt_self (n : Int) (by omega) hn2
  have hwrap : wrapInt (n : Int) = (n : Int) := wrapInt_of_lt _ (by omega) hn2
  refine ⟨_, md, .fin 1, .fin 1, hnew, hrun, ?_, ?_, rfl, rfl, by simp [F32.equal],
    by simp [F32.equal]⟩
  · simp only [Precision, gtp, gfp, Option.bind_eq_bind, Option.some_bind, add_zero, hwrap]
    rw [Option.pure_def, hdiv]
  · simp only [Recall, gtp, gfn, Option.bind_eq_bind, Option.some_bind, add_zero, hwrap]
    rw [Option.pure_def, hdiv]

/-- C11, as amended, at a concrete input: three calls `Add(1, 1, 1)` on `New(2)`. -/
theorem C11_precision_recall_after_true_positives_witness :
    ∃ md0 md x y, New 2 = some md0 ∧
      runAdds md0 (List.replicate 3 (1, 1, 1)) = some md ∧
      Precision md 1 = some x ∧ Recall md 1 = some y ∧
      x = .fin 1 ∧ y = .fin 1 ∧
      F32.equal x (.fin 1) = true ∧ F32.equal y (.fin 1) = true :=
  C11_precision_recall_after_true_positives 2 1 3 (by decide) (by decide) (by decide)
    (by decide)

/-- C11 as stated fails for zero calls: on `New(1)` with no `Add` call, `Precision(0)` and
`Recall(0)` are `0/0`, that is NaN, and neither compares equal to `1.0`. -/
theorem C11_no_calls_gives_NaN :
    ∃ md0 x y, New 1 = some md0 ∧
      runAdds md0 (List.replicate 0 ((0 : Int), (1 : Int), (1 : Int))) = some md0 ∧
      Precision md0 0 = some x ∧ Recall md0 0 = some y ∧
      x = F32.nan ∧ y = F32.nan ∧
      F32.equal x (.fin 1) = false ∧ F32.equal y (.fin 1) = false := by
  refine ⟨⟨1, [0], [0], [0], [0], 0, 0, 0, 0, 0⟩, .nan, .nan, by decide, by decide, ?_, ?_,
    rfl, rfl, rfl, rfl⟩
  · have g1 : sliceGet ([0] : List Int) 0 = some 0 := by decide
    have g2 : wrapInt 0 = 0 := by decide
    simp only [Precision, g1, Option.bind_eq_bind, Option.some_bind, add_zero, g2]
    rw [Option.pure_def, F32.div_ofInt_zero]
  · have g1 : sliceGet ([0] : List Int) 0 = some 0 := by decide
    have g2 : wrapInt 0 = 0 := by decide
    simp only [Recall, g1, Option.bind_eq_bind, Option.some_bind, add_zero, g2]
    rw [Option.pure_def, F32.div_ofInt_zero]

/-! ## `MacroMetrics` on two classes -/

theorem F32.equal_self (x : F32) : F32.equal x x = true ↔ x ≠ .nan := by
  cases x <;> simp [F32.equal]

theorem F32.mul_comm (x y : F32) : F32.mul x y = F32.mul y x := by
  cases x <;> cases y <;> simp [F32.mul, Rat.mul_comm, Bool.xor_comm]

theorem F32.ofInt_two : F32.ofInt 2 = .fin 2 := by
  rw [F32.ofInt]
  exact_mod_cast round32_two

theorem Precision_eq (md : Data) (hwf : WellFormed md) (c : Nat) (hc : (c : Int) < md.numClass) :
    Precision md c = some (F32.div (F32.ofInt (counter md.tp c))
      (F32.ofInt (wrapInt (counter md.tp c + counter md.fp c)))) := by
  obtain ⟨w1, w2, w3, w4⟩ := hwf
  simp only [Precision, sliceGet_counter md.tp c (by omega), sliceGet_counter md.fp c (by omega),
    Option.bind_eq_bind, Option.some_bind]
  rfl

theorem Recall_eq (md : Data) (hwf : WellFormed md) (c : Nat) (hc : (c : Int) < md.numClass) :
    Recall md c = some (F32.div (F32.ofInt (counter md.tp c))
      (F32.ofInt (wrapInt (counter md.tp c + counter md.fn c)))) := by
  obtain ⟨w1, w2, w3, w4⟩ := hwf
  simp only [Recall, sliceGet_counter md.tp c (by omega), sliceGet_counter md.fn c (by omega),
    Option.bind_eq_bind, Option.some_bind]
  rfl

theorem Accuracy_eq (md : Data) (hwf : WellFormed md) (c : Nat) (hc : (c : Int) < md.numClass) :
    Accuracy md c = some (F32.div (F32.ofInt (wrapInt (counter md.tp c + counter md.tn c)))
      (F32.ofInt (wrapInt (wrapInt (wrapInt (counter md.tp c + counter md.fp c) +
        counter md.fn c) + counter md.tn c)))) := by
  obtain ⟨w1, w2, w3, w4⟩ := hwf
  simp only [Accuracy, sliceGet_counter md.tp c (by omega), sliceGet_counter md.fp c (by omega),
    sliceGet_counter md.fn c (by omega), sliceGet_counter md.tn c (by omega),
    Option.bind_eq_bind, Option.some_bind]
  rfl

/-- The two rounds of the loop of `MacroMetrics` on a well-formed 2-class accumulator. -/
theorem MacroMetrics_two (md : Data) (hwf : WellFormed md) (hn : md.numClass = 2) :
    ∃ p0 p1 r0 r1 a0 a1,
      Precision md 0 = some p0 ∧ Precision md 1 = some p1 ∧
      Recall md 0 = some r0 ∧ Recall md 1 = some r1 ∧
      Accuracy md 0 = some a0 ∧ Accuracy md 1 = some a1 ∧
      MacroMetrics md = some
        (F32.div (F32.add p0 p1) (.fin 2), F32.div (F32.add r0 r1) (.fin 2),
          F32.div (F32.mul (F32.mul (F32.div (F32.add p0 p1) (.fin 2))
              (F32.div (F32.add r0 r1) (.fin 2))) (.fin 2))
            (F32.add (F32.div (F32.add p0 p1) (.fin 2)) (F32.div (F32.add r0 r1) (.fin 2))),
          F32.div (F32.add a0 a1) (.fin 2)) := by
  have hP0 := Precision_eq md hwf 0 (by rw [hn]; decide)
  have hP1 := Precision_eq md hwf 1 (by rw [hn]; decide)
  have hR0 := Recall_eq md hwf 0 (by rw [hn]; decide)
  have hR1 := Recall_eq md hwf 1 (by rw [hn]; decide)
  have hA0 := Accuracy_eq md hwf 0 (by rw [hn]; decide)
  have hA1 := Accuracy_eq md hwf 1 (by rw [hn]; decide)
  simp only [Nat.cast_zero, Nat.cast_one] at hP0 hP1 hR0 hR1 hA0 hA1
  refine ⟨_, _, _, _, _, _, hP0, hP1, hR0, hR1, hA0, hA1, ?_⟩
  have hrange : List.range (2 : Int).toNat = [0, 1] := by decide
  simp only [MacroMetrics, forRange, hn, hrange, List.foldlM_cons, List.foldlM_nil,
    Nat.cast_zero, Nat.cast_one, hP0, hP1, hR0, hR1, hA0, hA1, Option.bind_eq_bind,
    Option.some_bind, Option.pure_def, F32.ofInt_two,
    F32.zero_add _ (F32.div_onGrid _ _)]

/-- C12, as amended: on every well-formed accumulator with `numClass == 2`, `MacroMetrics()`
returns; `macroPrecision`, `macroRecall` and `averageAccuracy` are the `float32` values
`(Precision(0) + Precision(1)) / 2`, `(Recall(0) + Recall(1)) / 2` and
`(Accuracy(0) + Accuracy(1)) / 2`, and `macroFMeasure` is the `float32` value
`2 * (macroPrecision * macroRecall) / (macroPrecision + macroRecall)`, NaN included; and each
of the four `==` comparisons is true exactly when that value is not NaN. -/
theorem C12_MacroMetrics_on_two_classes (md : Data) (hwf : WellFormed md)
    (hn : md.numClass = 2) :
    ∃ p0 p1 r0 r1 a0 a1 mP mR mF aA,
      Precision md 0 = some p0 ∧ Precision md 1 = some p1 ∧
      Recall md 0 = some r0 ∧ Recall md 1 = some r1 ∧
      Accuracy md 0 = some a0 ∧ Accuracy md 1 = some a1 ∧
      MacroMetrics md = some (mP, mR, mF, aA) ∧
      mP = F32.div (F32.add p0 p1) (.fin 2) ∧
      mR = F32.div (F32.add r0 r1) (.fin 2) ∧
      aA = F32.div (F32.add a0 a1) (.fin 2) ∧
      mF = F32.div (F32.mul (.fin 2) (F32.mul mP mR)) (F32.add mP mR) ∧
      (F32.equal mP (F32.div (F32.add p0 p1) (.fin 2)) = true ↔ mP ≠ .nan) ∧
      (F32.equal mR (F32.div (F32.add r0 r1) (.fin 2)) = true ↔ mR ≠ .nan) ∧
      (F32.equal aA (F32.div (F32.add a0 a1) (.fin 2)) = true ↔ aA ≠ .nan) ∧
      (F32.equal mF (F32.div (F32.mul (.fin 2) (F32.mul mP mR)) (F32.add mP mR)) = true ↔
        mF ≠ .nan) := by
  obtain ⟨p0, p1, r0, r1, a0, a1, hP0, hP1, hR0, hR1, hA0, hA1, hM⟩ :=
    MacroMetrics_two md hwf hn
  refine ⟨p0, p1, r0, r1, a0, a1, _, _, _, _, hP0, hP1, hR0, hR1, hA0, hA1, hM, rfl, rfl, rfl,
    ?_, F32.equal_self _, F32.equal_self _, F32.equal_self _, ?_⟩
  · rw [F32.mul_comm (.fin 2)]
  · rw [F32.mul_comm (.fin 2)]
    exact F32.equal_self _

/-- C12, as amended, at a concrete input: a 2-class accumulator with nonzero counters. -/
theorem C12_MacroMetrics_on_two_classes_witness :
    ∃ p0 p1 r0 r1 a0 a1 mP mR mF aA,
      Precision ⟨2, [1, 1], [1, 1], [1, 0], [0, 0], 0, 0, 0, 0, 0⟩ 0 = some p0 ∧
      Precision ⟨2, [1, 1], [1, 1], [1, 0], [0, 0], 0, 0, 0, 0, 0⟩ 1 = some p1 ∧
      Recall ⟨2, [1, 1], [1, 1], [1, 0], [0, 0], 0, 0, 0, 0, 0⟩ 0 = some r0 ∧
      Recall ⟨2, [1, 1], [1, 1], [1, 0], [0, 0], 0, 0, 0, 0, 0⟩ 1 = some r1 ∧
      Accuracy ⟨2, [1, 1], [1, 1], [1, 0], [0, 0], 0, 0, 0, 0, 0⟩ 0 = some a0 ∧
      Accuracy ⟨2, [1, 1], [1, 1], [1, 0], [0, 0], 0, 0, 0, 0, 0⟩ 1 = some a1 ∧
      MacroMetrics ⟨2, [1, 1], [1, 1], [1, 0], [0, 0], 0, 0, 0, 0, 0⟩ =
        some (mP, mR, mF, aA) ∧
      mP = F32.div (F32.add p0 p1) (.fin 2) ∧
      mR = F32.div (F32.add r0 r1) (.fin 2) ∧
      aA = F32.div (F32.add a0 a1) (.fin 2) ∧
      mF = F32.div (F32.mul (.fin 2) (F32.mul mP mR)) (F32.add mP mR) ∧
      (F32.equal mP (F32.div (F32.add p0 p1) (.fin 2)) = true ↔ mP ≠ .nan) ∧
      (F32.equal mR (F32.div (F32.add r0 r1) (.fin 2)) = true ↔ mR ≠ .nan) ∧
      (F32.equal aA (F32.div (F32.add a0 a1) (.fin 2)) = true ↔ aA ≠ .nan) ∧
      (F32.equal mF (F32.div (F32.mul (.fin 2) (F32.mul mP mR)) (F32.add mP mR)) = true ↔
        mF ≠ .nan) :=
  C12_MacroMetrics_on_two_classes ⟨2, [1, 1], [1, 1], [1, 0], [0, 0], 0, 0, 0, 0, 0⟩
    (by decide) (by decide)

/-- C12 as stated fails on `New(2)`: with no observation every per-class metric is `0/0`, so
`Precision(0)`, `Precision(1)` and `macroPrecision` are NaN, and `macroPrecision` does not
compare equal to `(Precision(0) + Precision(1)) / 2`. -/
theorem C12_NaN_compares_unequal :
    ∃ md p0 p1 mP mR mF aA, New 2 = some md ∧
      Precision md 0 = some p0 ∧ Precision md 1 = some p1 ∧
      MacroMetrics md = some (mP, mR, mF, aA) ∧
      p0 = .nan ∧ p1 = .nan ∧ mP = .nan ∧
      F32.equal mP (F32.div (F32.add p0 p1) (.fin 2)) = false := by
  have hwf : WellFormed ⟨2, [0, 0], [0, 0], [0, 0], [0, 0], 0, 0, 0, 0, 0⟩ := by decide
  obtain ⟨p0, p1, r0, r1, a0, a1, hP0, hP1, -, -, -, -, hM⟩ :=
    MacroMetrics_two ⟨2, [0, 0], [0, 0], [0, 0], [0, 0], 0, 0, 0, 0, 0⟩ hwf rfl
  have e0 : p0 = .nan := by
    have h := Precision_eq ⟨2, [0, 0], [0, 0], [0, 0], [0, 0], 0, 0, 0, 0, 0⟩ hwf 0 (by decide)
    have c1 : counter ([0, 0] : List Int) 0 = 0 := by decide
    have c2 : wrapInt 0 = 0 := by decide
    simp only [Nat.cast_zero, c1, add_zero, c2, F32.div_ofInt_zero] at h
    rw [hP0] at h
    exact Option.some.inj h
  have e1 : p1 = .nan := by
    have h := Precision_eq ⟨2, [0, 0], [0, 0], [0, 0], [0, 0], 0, 0, 0, 0, 0⟩ hwf 1 (by decide)
    have c1 : counter ([0, 0] : List Int) 1 = 0 := by decide
    have c2 : wrapInt 0 = 0 := by decide
    simp only [Nat.cast_one, c1, add_zero, c2, F32.div_ofInt_zero] at h
    rw [hP1] at h
    exact Option.some.inj h
  subst e0 e1
  exact ⟨_, _, _, _, _, _, _, by decide, hP0, hP1, hM, rfl, rfl, rfl, rfl⟩

/-! ## Single calls in wrapping arithmetic -/

theorem counter_mem (xs : List Int) (j : Nat) (hj : j < xs.length) : counter xs j ∈ xs := by
  have e : counter xs j = xs[j] := by
    simp [counter, List.getD_eq_getElem?_getD, List.getElem?_eq_getElem hj]
  rw [e]
  exact List.getElem_mem hj

theorem wrapping_bump_eq_bump (xs : List Int) (i : Int) (h0 : 0 ≤ i) (h1 : i < xs.length)
    (hb : -2 ^ 63 ≤ counter xs i.toNat ∧ counter xs i.toNat < 2 ^ 63 - 1) :
    Wrapping.bump xs i = bump xs i := by
  have hw : wrapInt (counter xs i.toNat + 1) = counter xs i.toNat + 1 :=
    wrapInt_of_lt _ (by omega) (by omega)
  simp only [Wrapping.bump, bump, sliceGet_counter_int xs i h0 h1, Option.bind_eq_bind,
    Option.some_bind, hw]

theorem CountersBelowMax.at_class {md : Data} (hb : CountersBelowMax md) (hwf : WellFormed md)
    (j : Nat) (hj : (j : Int) < md.numClass) :
    (-2 ^ 63 ≤ counter md.tp j ∧ counter md.tp j < 2 ^ 63 - 1) ∧
    (-2 ^ 63 ≤ counter md.fp j ∧ counter md.fp j < 2 ^ 63 - 1) ∧
    (-2 ^ 63 ≤ counter md.fn j ∧ counter md.fn j < 2 ^ 63 - 1) ∧
    (-2 ^ 63 ≤ counter md.tn j ∧ counter md.tn j < 2 ^ 63 - 1) := by
  obtain ⟨w1, w2, w3, w4⟩ := hwf
  obtain ⟨b1, b2, b3, b4⟩ := hb
  exact ⟨b1 _ (counter_mem _ j (by omega)), b2 _ (counter_mem _ j (by omega)),
    b3 _ (counter_mem _ j (by omega)), b4 _ (counter_mem _ j (by omega))⟩

/-- Below the largest `int` the wrapping `Add` is the `Add` without the wrap. -/
theorem wrapping_Add_eq_Add (md : Data) (classID pred answer : Int) (hwf : WellFormed md)
    (h0 : 0 ≤ classID) (h1 : classID < md.numClass)
    (hb : (-2 ^ 63 ≤ counter md.tp classID.toNat ∧ counter md.tp classID.toNat < 2 ^ 63 - 1) ∧
      (-2 ^ 63 ≤ counter md.fp classID.toNat ∧ counter md.fp classID.toNat < 2 ^ 63 - 1) ∧
      (-2 ^ 63 ≤ counter md.fn classID.toNat ∧ counter md.fn classID.toNat < 2 ^ 63 - 1) ∧
      (-2 ^ 63 ≤ counter md.tn classID.toNat ∧ counter md.tn classID.toNat < 2 ^ 63 - 1)) :
    Wrapping.Add md classID pred answer = Add md classID pred answer := by
  obtain ⟨w1, w2, w3, w4⟩ := hwf
  obtain ⟨b1, b2, b3, b4⟩ := hb
  simp only [Wrapping.Add, Add,
    wrapping_bump_eq_bump md.tp classID h0 (by omega) b1,
    wrapping_bump_eq_bump md.fp classID h0 (by omega) b2,
    wrapping_bump_eq_bump md.fn classID h0 (by omega) b3,
    wrapping_bump_eq_bump md.tn classID h0 (by omega) b4]

/-- The loop of `AddClassID` with wrapping `Add` calls and the loop without the wrap, cut
after `k` rounds: round `j` finds the counters of class `j` as they were before the loop. -/
theorem wrappingLoop_eq (md : Data) (hwf : WellFormed md) (hb : CountersBelowMax md)
    (body body64 : Int → Data → Option Data) (pf af : Nat → Int)
    (hbody : ∀ (j : Nat) (st : Data), (j : Int) < md.numClass →
      body j st = Add st j (pf j) (af j))
    (hbody64 : ∀ (j : Nat) (st : Data), (j : Int) < md.numClass →
      body64 j st = Wrapping.Add st j (pf j) (af j))
    (k : Nat) (hk : (k : Int) ≤ md.numClass) :
    (List.range k).foldlM (fun st (j : Nat) => body64 (j : Int) st) md =
      (List.range k).foldlM (fun st (j : Nat) => body (j : Int) st) md := by
  induction k with
  | zero => rfl
  | succ k ih =>
    obtain ⟨st, hst, -, -, hshift⟩ := addLoop_spec md hwf body pf af hbody k (by omega)
    rw [List.range_succ, List.foldlM_append, List.foldlM_append, ih (by omega), hst]
    have hwf' := hshift.wellFormed hwf
    obtain ⟨hn, -, -, -, -, hcnt⟩ := hshift
    obtain ⟨c1, c2, c3, c4⟩ := hcnt k
    obtain ⟨b1, b2, b3, b4⟩ := hb.at_class hwf k (by omega)
    have hlt : ¬ k < k := lt_irrefl k
    simp only [ind, hlt, false_and, if_false, add_zero] at c1 c2 c3 c4
    have heq : Wrapping.Add st (k : Int) (pf k) (af k) = Add st (k : Int) (pf k) (af k) :=
      wrapping_Add_eq_Add st (k : Int) (pf k) (af k) hwf' (by omega) (by omega)
        (by simp only [Int.toNat_ofNat, c1, c2, c3, c4]; exact ⟨b1, b2, b3, b4⟩)
    simp only [List.foldlM_cons, List.foldlM_nil, Option.bind_eq_bind, Option.some_bind,
      hbody k st (by omega), hbody64 k st (by omega), heq]

/-- Below the largest `int` the wrapping `AddClassID` is the `AddClassID` without the wrap. -/
theorem wrapping_AddClassID_eq_AddClassID (md : Data) (hwf : WellFormed md)
    (hb : CountersBelowMax md) (p a : Int)
    (hp0 : 0 ≤ p) (hp1 : p < md.numClass) (ha0 : 0 ≤ a) (ha1 : a < md.numClass) :
    Wrapping.AddClassID md p a = AddClassID md p a := by
  have hpk : p.toNat < md.numClass.toNat := by omega
  have hak : a.toNat < md.numClass.toNat := by omega
  have hloop := wrappingLoop_eq md hwf hb
    (fun j st => do
      let x ← sliceGet ((List.replicate md.numClass.toNat (0 : ℚ)).set p.toNat 1) j
      let y ← sliceGet ((List.replicate md.numClass.toNat (0 : ℚ)).set a.toNat 1) j
      Add st j (floatToInt x) (floatToInt y))
    (fun j st => do
      let x ← sliceGet ((List.replicate md.numClass.toNat (0 : ℚ)).set p.toNat 1) j
      let y ← sliceGet ((List.replicate md.numClass.toNat (0 : ℚ)).set a.toNat 1) j
      Wrapping.Add st j (floatToInt x) (floatToInt y))
    (fun j => if j = p.toNat then 1 else 0) (fun j => if j = a.toNat then 1 else 0)
    (by
      intro j st hj
      have hj' : j < md.numClass.toNat := by omega
      simp only [sliceGet_oneHot _ _ _ hpk hj', sliceGet_oneHot _ _ _ hak hj',
        Option.bind_eq_bind, Option.some_bind, floatToInt_ite])
    (by
      intro j st hj
      have hj' : j < md.numClass.toNat := by omega
      simp only [sliceGet_oneHot _ _ _ hpk hj', sliceGet_oneHot _ _ _ hak hj',
        Option.bind_eq_bind, Option.some_bind, floatToInt_ite])
    md.numClass.toNat (by omega)
  simp only [Wrapping.AddClassID, AddClassID, ToOneHot_ok _ _ hp0 hp1, ToOneHot_ok _ _ ha0 ha1,
    forRange]
  rw [hloop]

/-- C1, as amended: on an accumulator whose four counter slices have length `numClass` and
whose counters are all below the largest `int`, `2^63 - 1`, for an in-range `classID` and
`pred`, `answer` in `{0, 1}`, `Add` returns normally and adds exactly 1 to one counter at index
`classID` (`tp` for (1,1), `fp` for (1,0), `fn` for (0,1), `tn` for (0,0)); the other three
counters at `classID` and all counters at every other index keep their value, and no slice
changes its length. -/
theorem C1_Add_increments_exactly_one_counter (md : Data) (classID pred answer : Int)
    (hwf : WellFormed md) (hb : CountersBelowMax md)
    (h0 : 0 ≤ classID) (h1 : classID < md.numClass)
    (hp : pred = 0 ∨ pred = 1) (ha : answer = 0 ∨ answer = 1) :
    ∃ md', Wrapping.Add md classID pred answer = some md' ∧
      md'.tp.length = md.tp.length ∧ md'.fp.length = md.fp.length ∧
      md'.fn.length = md.fn.length ∧ md'.tn.length = md.tn.length ∧
      ∀ j : Nat,
        counter md'.tp j = counter md.tp j + ind ((j : Int) = classID ∧ pred = 1 ∧ answer = 1) ∧
        counter md'.fp j = counter md.fp j + ind ((j : Int) = classID ∧ pred = 1 ∧ answer = 0) ∧
        counter md'.fn j = counter md.fn j + ind ((j : Int) = classID ∧ pred = 0 ∧ answer = 1) ∧
        counter md'.tn j = counter md.tn j + ind ((j : Int) = classID ∧ pred = 0 ∧ answer = 0) := by
  have hat := hb.at_class hwf classID.toNat (by omega)
  rw [wrapping_Add_eq_Add md classID pred answer hwf h0 h1 hat]
  obtain ⟨md', hadd, -, -, l1, l2, l3, l4, hcnt⟩ := Add_spec md classID pred answer hwf h0 h1
  refine ⟨md', hadd, l1, l2, l3, l4, fun j => ?_⟩
  obtain ⟨e1, e2, e3, e4⟩ := hcnt j
  refine ⟨e1, e2, e3, ?_⟩
  rw [e4]
  rcases hp with rfl | rfl <;> rcases ha with rfl | rfl <;> simp [ind]

/-- C1, as amended, at a concrete input: a false positive for class 1 of a 2-class
accumulator. -/
theorem C1_Add_increments_exactly_one_counter_witness :
    ∃ md', Wrapping.Add ⟨2, [3, 4], [5, 6], [7, 8], [9, 10], 0, 0, 0, 0, 0⟩ 1 1 0 = some md' ∧
      md'.tp.length = 2 ∧ md'.fp.length = 2 ∧ md'.fn.length = 2 ∧ md'.tn.length = 2 ∧
      ∀ j : Nat,
        counter md'.tp j = counter [3, 4] j + ind ((j : Int) = 1 ∧ (1 : Int) = 1 ∧ (0 : Int) = 1) ∧
        counter md'.fp j = counter [5, 6] j + ind ((j : Int) = 1 ∧ (1 : Int) = 1 ∧ (0 : Int) = 0) ∧
        counter md'.fn j = counter [7, 8] j + ind ((j : Int) = 1 ∧ (1 : Int) = 0 ∧ (0 : Int) = 1) ∧
        counter md'.tn j = counter [9, 10] j + ind ((j : Int) = 1 ∧ (1 : Int) = 0 ∧ (0 : Int) = 0) :=
  C1_Add_increments_exactly_one_counter ⟨2, [3, 4], [5, 6], [7, 8], [9, 10], 0, 0, 0, 0, 0⟩ 1 1 0
    (by decide) (by decide) (by decide) (by decide) (by decide) (by decide)

/-- C1 as stated fails at the largest `int`: on the 1-class accumulator with
`tp[0] = 2^63 - 1`, `Add(0, 1, 1)` leaves `tp[0] = -2^63`, which is not `tp[0] + 1`. -/
theorem C1_Add_wraps_at_largest_int :
    ∃ md', Wrapping.Add ⟨1, [2 ^ 63 - 1], [0], [0], [0], 0, 0, 0, 0, 0⟩ 0 1 1 = some md' ∧
      WellFormed ⟨1, [2 ^ 63 - 1], [0], [0], [0], 0, 0, 0, 0, 0⟩ ∧
      counter md'.tp 0 = -2 ^ 63 ∧
      counter md'.tp 0 ≠ counter [2 ^ 63 - 1] 0 + 1 :=
  ⟨⟨1, [-2 ^ 63], [0], [0], [0], 0, 0, 0, 0, 0⟩, by decide, by decide, by decide, by decide⟩

/-- C3, as amended: on a well-formed accumulator whose counters are all below the largest
`int`, `2^63 - 1`, and for an in-range class `c`, `AddClassID(c, c)` returns the nil error,
adds 1 to `tp[c]` and to `tn[j]` for every class `j` other than `c`, and leaves every `fp`
and `fn` counter, `tp[j]` for `j` other than `c`, and `tn[c]` as they were. -/
theorem C3_AddClassID_same_class (md : Data) (c : Int) (hwf : WellFormed md)
    (hb : CountersBelowMax md) (h0 : 0 ≤ c) (h1 : c < md.numClass) :
    ∃ md', Wrapping.AddClassID md c c = some (md', none) ∧
      md'.tp.length = md.tp.length ∧ md'.fp.length = md.fp.length ∧
      md'.fn.length = md.fn.length ∧ md'.tn.length = md.tn.length ∧
      ∀ j : Nat,
        counter md'.tp j = counter md.tp j + ind ((j : Int) = c) ∧
        counter md'.fp j = counter md.fp j ∧
        counter md'.fn j = counter md.fn j ∧
        counter md'.tn j = counter md.tn j + ind ((j : Int) < md.numClass ∧ (j : Int) ≠ c) := by
  rw [wrapping_AddClassID_eq_AddClassID md hwf hb c c h0 h1 h0 h1]
  obtain ⟨md', hrun, -, -, l1, l2, l3, l4, hcnt⟩ := AddClassID_ok md hwf c c h0 h1 h0 h1
  refine ⟨md', hrun, l1, l2, l3, l4, fun j => ?_⟩
  obtain ⟨e1, e2, e3, e4⟩ := hcnt j
  refine ⟨?_, ?_, ?_, ?_⟩
  · rw [e1]; simp [ind]
  · rw [e2]; simp [ind]
  · rw [e3]; simp [ind]
  · rw [e4]; simp [ind]

/-- C3, as amended, at a concrete input: class 1 predicted and answered on a 3-class
accumulator. -/
theorem C3_AddClassID_same_class_witness :
    ∃ md', Wrapping.AddClassID
        ⟨3, [1, 2, 3], [4, 5, 6], [7, 8, 9], [10, 11, 12], 0, 0, 0, 0, 0⟩ 1 1 =
        some (md', none) ∧
      md'.tp.length = 3 ∧ md'.fp.length = 3 ∧ md'.fn.length = 3 ∧ md'.tn.length = 3 ∧
      ∀ j : Nat,
        counter md'.tp j = counter [1, 2, 3] j + ind ((j : Int) = 1) ∧
        counter md'.fp j = counter [4, 5, 6] j ∧
        counter md'.fn j = counter [7, 8, 9] j ∧
        counter md'.tn j = counter [10, 11, 12] j + ind ((j : Int) < 3 ∧ (j : Int) ≠ 1) :=
  C3_AddClassID_same_class ⟨3, [1, 2, 3], [4, 5, 6], [7, 8, 9], [10, 11, 12], 0, 0, 0, 0, 0⟩ 1
    (by decide) (by decide) (by decide) (by decide)

/-- C3 as stated fails at the largest `int`: on the well-formed 1-class accumulator with
`tp[0] = 2^63 - 1`, `AddClassID(0, 0)` returns the nil error and leaves `tp[0] = -2^63`,
which is not `tp[0] + 1`. -/
theorem C3_AddClassID_wraps_at_largest_int :
    ∃ md', Wrapping.AddClassID ⟨1, [2 ^ 63 - 1], [0], [0], [0], 0, 0, 0, 0, 0⟩ 0 0 =
        some (md', none) ∧
      WellFormed ⟨1, [2 ^ 63 - 1], [0], [0], [0], 0, 0, 0, 0, 0⟩ ∧
      counter md'.tp 0 = -2 ^ 63 ∧
      counter md'.tp 0 ≠ counter [2 ^ 63 - 1] 0 + 1 :=
  ⟨⟨1, [-2 ^ 63], [0], [0], [0], 0, 0, 0, 0, 0⟩, by decide, by decide, by decide, by decide⟩

/-- C4, as amended: on a well-formed accumulator whose counters are all below the largest
`int`, `2^63 - 1`, and for in-range classes `p` and `a` that differ, `AddClassID(p, a)`
returns the nil error, adds 1 to `fp[p]`, to `fn[a]` and to `tn[j]` for every class `j` other
than `p` and `a`, and changes no other counter; no `tp` entry changes. -/
theorem C4_AddClassID_different_classes (md : Data) (p a : Int) (hwf : WellFormed md)
    (hb : CountersBelowMax md)
    (hp0 : 0 ≤ p) (hp1 : p < md.numClass) (ha0 : 0 ≤ a) (ha1 : a < md.numClass)
    (hne : p ≠ a) :
    ∃ md', Wrapping.AddClassID md p a = some (md', none) ∧
      md'.tp.length = md.tp.length ∧ md'.fp.length = md.fp.length ∧
      md'.fn.length = md.fn.length ∧ md'.tn.length = md.tn.length ∧
      ∀ j : Nat,
        counter md'.tp j = counter md.tp j ∧
        counter md'.fp j = counter md.fp j + ind ((j : Int) = p) ∧
        counter md'.fn j = counter md.fn j + ind ((j : Int) = a) ∧
        counter md'.tn j = counter md.tn j +
          ind ((j : Int) < md.numClass ∧ (j : Int) ≠ p ∧ (j : Int) ≠ a) := by
  rw [wrapping_AddClassID_eq_AddClassID md hwf hb p a hp0 hp1 ha0 ha1]
  obtain ⟨md', hrun, -, -, l1, l2, l3, l4, hcnt⟩ := AddClassID_ok md hwf p a hp0 hp1 ha0 ha1
  refine ⟨md', hrun, l1, l2, l3, l4, fun j => ?_⟩
  obtain ⟨e1, e2, e3, e4⟩ := hcnt j
  refine ⟨?_, ?_, ?_, e4⟩
  · rw [e1]
    by_cases x : (j : Int) = p <;> by_cases y : (j : Int) = a <;>
      first
      | (exfalso; omega)
      | simp [ind, x, y, hne, Ne.symm hne]
  · rw [e2]
    by_cases x : (j : Int) = p <;> by_cases y : (j : Int) = a <;>
      first
      | (exfalso; omega)
      | simp [ind, x, y, hne, Ne.symm hne]
  · rw [e3]
    by_cases x : (j : Int) = p <;> by_cases y : (j : Int) = a <;>
      first
      | (exfalso; omega)
      | simp [ind, x, y, hne, Ne.symm hne]

/-- C4, as amended, at a concrete input: class 2 predicted, class 0 answered, on a 3-class
accumulator. -/
theorem C4_AddClassID_different_classes_witness :
    ∃ md', Wrapping.AddClassID
        ⟨3, [1, 2, 3], [4, 5, 6], [7, 8, 9], [10, 11, 12], 0, 0, 0, 0, 0⟩ 2 0 =
        some (md', none) ∧
      md'.tp.length = 3 ∧ md'.fp.length = 3 ∧ md'.fn.length = 3 ∧ md'.tn.length = 3 ∧
      ∀ j : Nat,
        counter md'.tp j = counter [1, 2, 3] j ∧
        counter md'.fp j = counter [4, 5, 6] j + ind ((j : Int) = 2) ∧
        counter md'.fn j = counter [7, 8, 9] j + ind ((j : Int) = 0) ∧
        counter md'.tn j = counter [10, 11, 12] j +
          ind ((j : Int) < 3 ∧ (j : Int) ≠ 2 ∧ (j : Int) ≠ 0) :=
  C4_AddClassID_different_classes
    ⟨3, [1, 2, 3], [4, 5, 6], [7, 8, 9], [10, 11, 12], 0, 0, 0, 0, 0⟩ 2 0
    (by decide) (by decide) (by decide) (by decide) (by decide) (by decide) (by decide)

/-- C4 as stated fails at the largest `int`: on the well-formed 2-class accumulator with
`fp[0] = 2^63 - 1`, `AddClassID(0, 1)` returns the nil error and leaves `fp[0] = -2^63`,
which is not `fp[0] + 1`. -/
theorem C4_AddClassID_wraps_at_largest_int :
    ∃ md', Wrapping.AddClassID ⟨2, [0, 0], [2 ^ 63 - 1, 0], [0, 0], [0, 0], 0, 0, 0, 0, 0⟩ 0 1 =
        some (md', none) ∧
      WellFormed ⟨2, [0, 0], [2 ^ 63 - 1, 0], [0, 0], [0, 0], 0, 0, 0, 0, 0⟩ ∧
      counter md'.fp 0 = -2 ^ 63 ∧
      counter md'.fp 0 ≠ counter [2 ^ 63 - 1, 0] 0 + 1 :=
  ⟨⟨2, [0, 0], [-2 ^ 63, 0], [0, 1], [0, 0], 0, 0, 0, 0, 0⟩, by decide, by decide, by decide,
    by decide⟩

end Metrics
